/-
Verification development for the MT5 analyzer core.

Python strings are modelled as lists of characters, Python floats as exact
rationals, Python ints as integers, and fallible operations as Option or
Except values.  Each definition mirrors one function of the source tree
(src/backend); theorems at the end of the file settle the specification
claims against these definitions.
-/
import Mathlib

/-- Python strings, modelled as character lists. -/
abbrev PStr := List Char

/-- The whitespace characters stripped by Python str.strip (ASCII range). -/
def pyIsSpace (c : Char) : Bool :=
  c == ' ' || c == '\t' || c == '\n' || c == '\r' || c == '\x0b' || c == '\x0c'

/-- Model of Python str.lstrip(). -/
def pyStripLeft (l : PStr) : PStr := l.dropWhile pyIsSpace

/-- Model of Python str.strip(). -/
def pyStrip (l : PStr) : PStr :=
  ((l.dropWhile pyIsSpace).reverse.dropWhile pyIsSpace).reverse

/-- The decimal digit character for a value below ten. -/
def digitCh (n : ℕ) : Char := Char.ofNat (48 + n)

/-- Decimal digits, most significant first, with explicit fuel so that the
definition reduces inside the kernel; fuel above the value is enough. -/
def natToDigitsAux : ℕ → ℕ → PStr
  | 0, _ => []
  | fuel + 1, n =>
    if n < 10 then [digitCh n] else natToDigitsAux fuel (n / 10) ++ [digitCh (n % 10)]

/-- Decimal digits of a natural number, most significant first
(model of Python str on a non-negative int). -/
def natToDigits (n : ℕ) : PStr := natToDigitsAux (n + 1) n

/-- Numeric value of a decimal digit character. -/
def digitVal (c : Char) : ℕ := c.toNat - 48

/-- Reads a digit string as a natural number (no validation). -/
def readNat (l : PStr) : ℕ := l.foldl (fun a c => a * 10 + digitVal c) 0

/-- Parses a non-empty all-digit string as a natural number. -/
def parseNatDigits? (l : PStr) : Option ℕ :=
  if !l.isEmpty && l.all Char.isDigit then some (readNat l) else none

/-- Model of the Python int builtin on strings: optional surrounding
whitespace, an optional sign, then decimal digits. -/
def parseInt? (s : PStr) : Option ℤ :=
  match pyStrip s with
  | [] => none
  | c :: rest =>
    if c = '-' then (parseNatDigits? rest).map (fun n => -(Int.ofNat n))
    else if c = '+' then (parseNatDigits? rest).map Int.ofNat
    else (parseNatDigits? (c :: rest)).map Int.ofNat

/-- Model of Python str on an int. -/
def intToDigits (i : ℤ) : PStr :=
  if i < 0 then '-' :: natToDigits i.natAbs else natToDigits i.natAbs

/-- Parses an unsigned decimal string with an optional single decimal
point, as an exact rational. -/
def parseUFloat? (l : PStr) : Option ℚ :=
  let intPart := l.takeWhile (fun c => c ≠ '.')
  let rest := l.dropWhile (fun c => c ≠ '.')
  match rest with
  | [] =>
    if !intPart.isEmpty && intPart.all Char.isDigit then some (readNat intPart : ℚ) else none
  | _ :: frac =>
    if (!intPart.isEmpty || !frac.isEmpty) && intPart.all Char.isDigit && frac.all Char.isDigit
    then some ((readNat intPart : ℚ) + (readNat frac : ℚ) / (10 ^ frac.length : ℚ))
    else none

/-- Model of the Python float builtin on plain decimal strings (exponent
and special forms never arise from the modelled code paths). -/
def parseFloat? (s : PStr) : Option ℚ :=
  match pyStrip s with
  | [] => none
  | c :: rest =>
    if c = '-' then (parseUFloat? rest).map (fun q => -q)
    else if c = '+' then parseUFloat? rest
    else parseUFloat? (c :: rest)

/-- Pads a digit string on the left with zeros up to the given width. -/
def padZeros (k : ℕ) (l : PStr) : PStr := List.replicate (k - l.length) '0' ++ l

/-- The integer nearest to q·10⁸ (half rounded up), computed as the floor
of (2·10⁸·num + den)/(2·den); the rational it denotes is the 8-decimal
rounding of q. -/
def round8 (q : ℚ) : ℤ := Int.ediv (2 * 100000000 * q.num + (q.den : ℤ)) (2 * (q.den : ℤ))

/-- Model of the Python format specifier .8f: a fixed-point decimal with
exactly eight fractional digits (floats idealised as rationals). -/
def formatFixed8 (q : ℚ) : PStr :=
  let n := round8 q
  (if n < 0 then ['-'] else []) ++
    natToDigits (n.natAbs / 100000000) ++ '.' :: padZeros 8 (natToDigits (n.natAbs % 100000000))

/-- Scalar values held in the parameter dictionaries of optimization
records (ints, floats, raw text, and the Python value None that results
from an empty Parameter element). -/
inductive PyVal where
  | none : PyVal
  | int : ℤ → PyVal
  | float : ℚ → PyVal
  | str : PStr → PyVal
  | bool : Bool → PyVal
deriving DecidableEq, Repr

/-- Python dictionaries as insertion-ordered association lists with
distinct keys maintained by dictSet. -/
abbrev PyDict (α : Type) := List (PStr × α)

/-- Python dictionary assignment: replace in place when the key exists,
otherwise append. -/
def dictSet {α : Type} : PyDict α → PStr → α → PyDict α
  | [], k, v => [(k, v)]
  | (k', v') :: rest, k, v =>
    if k' = k then (k', v) :: rest else (k', v') :: dictSet rest k v

/-- Numeric view of a value under Python ==, where booleans count as the
numbers 0 and 1 and ints and floats compare by value. -/
def PyVal.toNum : PyVal → Option ℚ
  | .int i => some (i : ℚ)
  | .float q => some q
  | .bool b => some (if b then 1 else 0)
  | _ => Option.none

/-- Model of Python == on scalar values. -/
def pyValEq (a b : PyVal) : Bool :=
  match a.toNum, b.toNum with
  | some x, some y => decide (x = y)
  | _, _ =>
    match a, b with
    | .str s, .str t => decide (s = t)
    | .none, .none => true
    | _, _ => false

/-- Model of Python == on dictionaries: the same key sets with values
equal under Python ==. -/
def pyDictEq (a b : PyDict PyVal) : Bool :=
  (a.all fun p => match List.lookup p.1 b with
    | some w => pyValEq p.2 w
    | _ => false) &&
  (b.all fun p => match List.lookup p.1 a with
    | some w => pyValEq p.2 w
    | _ => false)

/-- One optimization record (the OptimizationResult dataclass of
src/backend/mt5_parser.py); floats are modelled as rationals and the
Optional metric fields as Option values. -/
structure OptimizationResult where
  pass_number : ℤ
  parameters : PyDict PyVal
  profit : ℚ
  total_trades : ℤ
  profit_factor : Option ℚ := Option.none
  expected_payoff : Option ℚ := Option.none
  drawdown : Option ℚ := Option.none
  drawdown_percent : Option ℚ := Option.none
  sharpe_ratio : Option ℚ := Option.none
  recovery_factor : Option ℚ := Option.none
  win_rate : Option ℚ := Option.none
deriving DecidableEq, Repr

/-- The criteria dictionary passed to find_best_parameters: a field is
none when the corresponding key is absent (Python-None entries for the
three optional bounds behave identically to absent ones and are folded
into none as well). -/
structure SelectionCriteria where
  min_profit : Option ℚ := Option.none
  min_profit_factor : Option ℚ := Option.none
  min_trades : Option ℤ := Option.none
  max_drawdown : Option ℚ := Option.none
  min_sharpe : Option ℚ := Option.none
  min_recovery : Option ℚ := Option.none
  top_n : Option ℕ := Option.none
deriving DecidableEq

/-- The criteria after default_criteria.update(criteria) in
find_best_parameters. -/
structure EffectiveCriteria where
  min_profit : ℚ
  min_profit_factor : ℚ
  min_trades : ℤ
  max_drawdown : Option ℚ
  min_sharpe : Option ℚ
  min_recovery : Option ℚ
  top_n : ℕ
deriving DecidableEq

/-- Merging the supplied criteria over the defaults of
find_best_parameters. -/
def mergeCriteria (c : SelectionCriteria) : EffectiveCriteria :=
  ⟨c.min_profit.getD 0, c.min_profit_factor.getD 1, c.min_trades.getD 10,
   c.max_drawdown, c.min_sharpe, c.min_recovery, c.top_n.getD 10⟩

/-- Python truthiness of an optional float: None and 0.0 are falsy. -/
def truthyOpt : Option ℚ → Bool
  | Option.none => false
  | some v => decide (v ≠ 0)

/-- The profit-factor exclusion clause of the filter loop:
result.profit_factor and result.profit_factor < min_profit_factor. -/
def pfExcluded (c : EffectiveCriteria) (r : OptimizationResult) : Bool :=
  match r.profit_factor with
  | some v => decide (v ≠ 0) && decide (v < c.min_profit_factor)
  | _ => false

/-- The drawdown exclusion clause: max_drawdown and
result.drawdown_percent and result.drawdown_percent > max_drawdown. -/
def mdExcluded (c : EffectiveCriteria) (r : OptimizationResult) : Bool :=
  match c.max_drawdown, r.drawdown_percent with
  | some m, some v => decide (m ≠ 0) && decide (v ≠ 0) && decide (m < v)
  | _, _ => false

/-- The Sharpe exclusion clause: min_sharpe and result.sharpe_ratio and
result.sharpe_ratio < min_sharpe. -/
def sharpeExcluded (c : EffectiveCriteria) (r : OptimizationResult) : Bool :=
  match c.min_sharpe, r.sharpe_ratio with
  | some m, some v => decide (m ≠ 0) && decide (v ≠ 0) && decide (v < m)
  | _, _ => false

/-- The recovery exclusion clause: min_recovery and
result.recovery_factor and result.recovery_factor < min_recovery. -/
def recoveryExcluded (c : EffectiveCriteria) (r : OptimizationResult) : Bool :=
  match c.min_recovery, r.recovery_factor with
  | some m, some v => decide (m ≠ 0) && decide (v ≠ 0) && decide (v < m)
  | _, _ => false

/-- The whole filter of find_best_parameters: a record survives when no
exclusion clause fires. -/
def passesFilter (c : EffectiveCriteria) (r : OptimizationResult) : Bool :=
  !(decide (r.profit < c.min_profit)) && !(pfExcluded c r) &&
  !(decide (r.total_trades < c.min_trades)) && !(mdExcluded c r) &&
  !(sharpeExcluded c r) && !(recoveryExcluded c r)

/-- Stable insertion of a record into a profit-descending list: the new
record (earlier in the input) goes before every record of equal or
smaller profit. -/
def insertProfitDesc (x : OptimizationResult) :
    List OptimizationResult → List OptimizationResult
  | [] => [x]
  | y :: ys =>
    if decide (y.profit ≤ x.profit) then x :: y :: ys else y :: insertProfitDesc x ys

/-- Model of Python list.sort with key profit and reverse, which is a
stable descending sort. -/
def sortProfitDesc : List OptimizationResult → List OptimizationResult
  | [] => []
  | x :: xs => insertProfitDesc x (sortProfitDesc xs)

/-- The forward-validation loop of find_best_parameters: each surviving
record is kept when the first forward record with ==-equal parameters
exists and has positive profit. -/
def validateForward (fwd : List OptimizationResult)
    (top : List OptimizationResult) : List OptimizationResult :=
  top.foldl (fun acc r =>
    match fwd.find? (fun f => pyDictEq r.parameters f.parameters) with
    | some f => if decide (0 < f.profit) then acc ++ [r] else acc
    | _ => acc) []

/-- Model of MT5Parser.find_best_parameters; forward_results none models
the Python default None. -/
def find_best_parameters (optimization_results : List OptimizationResult)
    (forward_results : Option (List OptimizationResult))
    (criteria : SelectionCriteria) : List OptimizationResult :=
  if optimization_results.isEmpty then [] else
  let c := mergeCriteria criteria
  let filtered := optimization_results.filter (passesFilter c)
  let top_results := (sortProfitDesc filtered).take c.top_n
  match forward_results with
  | some fwd => if fwd.isEmpty then top_results else validateForward fwd top_results
  | _ => top_results

/-- The Python exceptions that the modelled code paths can raise. -/
inductive PyErr where
  | valueError : PyErr
  | typeError : PyErr
  | attributeError : PyErr
  | indexError : PyErr
  | zeroDivisionError : PyErr
deriving DecidableEq, Repr

/-- One trade row of a backtest report. -/
structure TradeRecord where
  ticket : PStr
  time : PStr
  type : PStr
  size : ℚ
  symbol : PStr
  price : ℚ
  profit : ℚ
deriving DecidableEq, Repr

/-- The BacktestReport dataclass of src/backend/mt5_parser.py. -/
structure BacktestReport where
  initial_deposit : ℚ
  total_net_profit : ℚ
  gross_profit : ℚ
  gross_loss : ℚ
  profit_factor : ℚ
  expected_payoff : ℚ
  absolute_drawdown : ℚ
  maximal_drawdown : ℚ
  relative_drawdown : ℚ
  total_trades : ℤ
  short_positions : ℤ
  long_positions : ℤ
  profit_trades : ℤ
  loss_trades : ℤ
  sharpe_ratio : Option ℚ := Option.none
  recovery_factor : Option ℚ := Option.none
  trades : List TradeRecord := []
deriving DecidableEq, Repr

/-- Python true division, raising ZeroDivisionError on a zero divisor. -/
def pyDivQ (a b : ℚ) : Except PyErr ℚ :=
  if b = 0 then .error .zeroDivisionError else .ok (a / b)

/-- The win_rate entry computed inside BacktestReport.to_dict:
(profit_trades / total_trades * 100) if total_trades > 0 else 0, with the
division modelled as the fallible Python operation. -/
def BacktestReport.winRateDict (r : BacktestReport) : Except PyErr ℚ :=
  if decide ((0 : ℤ) < r.total_trades) then do
    let q ← pyDivQ (r.profit_trades : ℚ) (r.total_trades : ℚ)
    pure (q * 100)
  else pure 0

/-- The numeric normalizer extract_number of parse_backtest_report: keep
only digits, dots and minus signs, then parse as float or default to 0. -/
def extract_number (text : PStr) : ℚ :=
  if text.isEmpty then 0 else
  let cleaned := text.filter (fun c => c.isDigit || c == '.' || c == '-')
  (parseFloat? cleaned).getD 0

/-- Python str.split() with no separator: split on whitespace runs,
dropping empty pieces. -/
def pySplitWs (l : PStr) : List PStr :=
  (l.splitOnP pyIsSpace).filter (fun s => !s.isEmpty)

/-- Python indexing [0] into a split result: IndexError when empty. -/
def headOrErr : List PStr → Except PyErr PStr
  | [] => .error .indexError
  | s :: _ => .ok s

/-- The metrics scan of parse_backtest_report: every table row with at
least two cells contributes key cols[0].strip() with value
cols[1].strip(); later duplicates overwrite earlier ones. -/
def buildMetrics (rows : List (List PStr)) : PyDict PStr :=
  rows.foldl (fun m cols =>
    match cols with
    | k :: v :: _ => dictSet m (pyStrip k) (pyStrip v)
    | _ => m) []

/-- metrics.get(key, default) of the backtest extractor. -/
def metricsGet (m : PyDict PStr) (k : String) (d : String) : PStr :=
  (List.lookup k.toList m).getD d.toList

/-- Python int() applied to a float value: truncation toward zero
(floats idealised as rationals, so the double-overflow path is absent). -/
def pyTruncQ (q : ℚ) : ℤ := Int.tdiv q.num (q.den : ℤ)

/-- The trade-table scan of parse_backtest_report: skip the header row,
turn every remaining row with at least 7 cells into a TradeRecord. -/
def parse_trades (trade_rows : List (List PStr)) : List TradeRecord :=
  (trade_rows.drop 1).foldl (fun acc cols =>
    if 7 ≤ cols.length then
      acc ++ [⟨pyStrip (cols.getD 0 []), pyStrip (cols.getD 1 []), pyStrip (cols.getD 2 []),
              extract_number (cols.getD 3 []), pyStrip (cols.getD 4 []),
              extract_number (cols.getD 5 []), extract_number (cols.getD 6 [])⟩]
    else acc) []

/-- Model of MT5Parser.parse_backtest_report after HTML tokenisation: rows
holds the cell texts of every table row of the document in order, and
trade_rows the rows of the selected trades table (none when the document
has no table). -/
def parse_backtest_report (rows : List (List PStr))
    (trade_rows : Option (List (List PStr))) : Except PyErr BacktestReport := do
  let m := buildMetrics rows
  let initial_deposit := extract_number (metricsGet m "Initial deposit" "0")
  let total_net_profit := extract_number (metricsGet m "Total net profit" "0")
  let gross_profit := extract_number (metricsGet m "Gross profit" "0")
  let gross_loss := extract_number (metricsGet m "Gross loss" "0")
  let profit_factor := extract_number (metricsGet m "Profit factor" "0")
  let expected_payoff := extract_number (metricsGet m "Expected payoff" "0")
  let absolute_drawdown := extract_number (metricsGet m "Absolute drawdown" "0")
  let maximal_drawdown := extract_number (metricsGet m "Maximal drawdown" "0")
  let rdstr := metricsGet m "Relative drawdown" "0"
  let relative_drawdown :=
    extract_number (if rdstr.contains '(' then rdstr.takeWhile (fun c => c ≠ '(') else rdstr)
  let total_trades := pyTruncQ (extract_number (metricsGet m "Total trades" "0"))
  let sp ← headOrErr (pySplitWs (metricsGet m "Short positions (won %)" "0"))
  let short_positions := pyTruncQ (extract_number sp)
  let lp ← headOrErr (pySplitWs (metricsGet m "Long positions (won %)" "0"))
  let long_positions := pyTruncQ (extract_number lp)
  let pt ← headOrErr (pySplitWs (metricsGet m "Profit trades (% of total)" "0"))
  let profit_trades := pyTruncQ (extract_number pt)
  let lt ← headOrErr (pySplitWs (metricsGet m "Loss trades (% of total)" "0"))
  let loss_trades := pyTruncQ (extract_number lt)
  let recovery_factor :=
    if 0 < maximal_drawdown then some (total_net_profit / maximal_drawdown) else Option.none
  let trades := match trade_rows with
    | some t => parse_trades t
    | _ => []
  pure ⟨initial_deposit, total_net_profit, gross_profit, gross_loss, profit_factor,
        expected_payoff, absolute_drawdown, maximal_drawdown, relative_drawdown,
        total_trades, short_positions, long_positions, profit_trades, loss_trades,
        Option.none, recovery_factor, trades⟩

/-- An XML element as produced by xml.etree: tag, attributes, direct
text, child elements. -/
inductive XmlElem where
  | mk : PStr → PyDict PStr → Option PStr → List XmlElem → XmlElem

/-- The tag of an element. -/
def XmlElem.tag : XmlElem → PStr
  | .mk t _ _ _ => t

/-- The attribute dictionary of an element. -/
def XmlElem.attrs : XmlElem → PyDict PStr
  | .mk _ a _ _ => a

/-- The text of an element (None when empty in the source document). -/
def XmlElem.text : XmlElem → Option PStr
  | .mk _ _ t _ => t

/-- The direct children of an element. -/
def XmlElem.children : XmlElem → List XmlElem
  | .mk _ _ _ c => c

/-- All descendants of the elements of a list, in document (preorder)
order. -/
def descendantsList : List XmlElem → List XmlElem
  | [] => []
  | .mk t a x ch :: cs => .mk t a x ch :: (descendantsList ch ++ descendantsList cs)

/-- root.findall of a descendant path: every descendant of the root with
the given tag, in document order. -/
def findallDescendants (root : XmlElem) (t : String) : List XmlElem :=
  (descendantsList root.children).filter (fun e => e.tag = t.toList)

/-- row.findall of a plain tag: the direct children with that tag. -/
def findChildren (e : XmlElem) (t : String) : List XmlElem :=
  e.children.filter (fun c => c.tag = t.toList)

/-- row.find of a plain tag: the first direct child with that tag. -/
def findChild? (e : XmlElem) (t : String) : Option XmlElem :=
  e.children.find? (fun c => c.tag = t.toList)

/-- element.get(name, default): attribute lookup. -/
def xmlAttr (e : XmlElem) (name : String) : Option PStr :=
  List.lookup name.toList e.attrs

/-- The type inference of the XML parameter loop: float when the text has
a dot, else int, keeping the raw value (text or None) on failure. -/
def parseXmlParamValue : Option PStr → PyVal
  | Option.none => PyVal.none
  | some s =>
    if s.contains '.' then
      match parseFloat? s with
      | some q => .float q
      | _ => .str s
    else
      match parseInt? s with
      | some i => .int i
      | _ => .str s

/-- float(element.text) on an optional metric element of a Row:
TypeError on empty text, ValueError on non-numeric text. -/
def optMetric : Option XmlElem → Except PyErr (Option ℚ)
  | Option.none => pure Option.none
  | some e =>
    match e.text with
    | Option.none => throw .typeError
    | some s =>
      match parseFloat? s with
      | some q => pure (some q)
      | _ => throw .valueError

/-- One Row element of the XML optimization report, mirroring the body of
the row loop of _parse_optimization_xml. -/
def parseXmlRow (row : XmlElem) : Except PyErr OptimizationResult := do
  let pass_number : ℤ ← match xmlAttr row "Pass" with
    | Option.none => pure 0
    | some s =>
      match parseInt? s with
      | some v => pure v
      | _ => throw .valueError
  let parameters := (findChildren row "Parameter").foldl
    (fun d p => dictSet d ((xmlAttr p "name").getD []) (parseXmlParamValue p.text)) []
  let profit : ℚ ← match findChild? row "Result" with
    | Option.none => throw .attributeError
    | some e =>
      match e.text with
      | Option.none => pure 0
      | some s =>
        if s.isEmpty then pure 0 else
        match parseFloat? s with
        | some q => pure q
        | _ => throw .valueError
  let total_trades : ℤ ← match findChild? row "Trades" with
    | Option.none => throw .attributeError
    | some e =>
      match e.text with
      | Option.none => pure 0
      | some s =>
        if s.isEmpty then pure 0 else
        match parseInt? s with
        | some v => pure v
        | _ => throw .valueError
  let profit_factor ← optMetric (findChild? row "ProfitFactor")
  let expected_payoff ← optMetric (findChild? row "ExpectedPayoff")
  let drawdown ← optMetric (findChild? row "Drawdown")
  let sharpe_ratio ← optMetric (findChild? row "Sharpe")
  let recovery_factor ← optMetric (findChild? row "Recovery")
  pure ⟨pass_number, parameters, profit, total_trades, profit_factor, expected_payoff,
        drawdown, Option.none, sharpe_ratio, recovery_factor, Option.none⟩

/-- Sequential fallible mapping, as the Python row loop: the first raised
exception aborts the whole parse. -/
def exceptMapList {α β : Type} (f : α → Except PyErr β) : List α → Except PyErr (List β)
  | [] => pure []
  | a :: as => do
    let b ← f a
    let bs ← exceptMapList f as
    pure (b :: bs)

/-- Model of MT5Parser._parse_optimization_xml on a parsed document. -/
def parse_optimization_xml (root : XmlElem) : Except PyErr (List OptimizationResult) :=
  exceptMapList parseXmlRow (findallDescendants root "Row")

/-- One table of the HTML report: its class tokens and the cell texts of
its rows. -/
structure HtmlTable where
  cls : List PStr
  rows : List (List PStr)

/-- An HTML document reduced to its tables in document order. -/
structure HtmlDoc where
  tables : List HtmlTable

/-- soup.find of the optimization table: first table carrying the class
optimization, else the first table of the document. -/
def findOptTable (d : HtmlDoc) : Option HtmlTable :=
  match d.tables.find? (fun t => t.cls.any (fun c => c = ("optimization").toList)) with
  | some t => some t
  | _ => d.tables.head?

/-- Whether the first list is an initial segment of the second. -/
def isLeadingSeg : PStr → PStr → Bool
  | [], _ => true
  | _ :: _, [] => false
  | a :: as, b :: bs => a == b && isLeadingSeg as bs

/-- Whether the first list occurs as a contiguous run inside the second
(model of the Python in operator on strings). -/
def containsSub (needle : PStr) : PStr → Bool
  | [] => needle.isEmpty
  | c :: cs => isLeadingSeg needle (c :: cs) || containsSub needle cs

/-- Case-insensitive substring test on a header cell. -/
def lcont (h : PStr) (needle : String) : Bool :=
  containsSub needle.toList (h.map Char.toLower)

/-- The per-row accumulator of the HTML optimization row loop. -/
structure HtmlRowState where
  parameters : PyDict PyVal := []
  profit : ℚ := 0
  total_trades : ℤ := 0
  profit_factor : Option ℚ := Option.none
  expected_payoff : Option ℚ := Option.none
  drawdown : Option ℚ := Option.none

/-- The header-classification branch body of the HTML row loop for one
header/value pair. -/
def htmlCell (st : HtmlRowState) (header value : PStr) : HtmlRowState :=
  let h := header.map Char.toLower
  if lcont h "profit" && !(lcont h "factor") then
    match parseFloat? (value.filter (fun c => !(c == ',') && !(c == '$'))) with
    | some q => { st with profit := q }
    | _ => st
  else if lcont h "trades" then
    match parseInt? value with
    | some v => { st with total_trades := v }
    | _ => st
  else if lcont h "profit factor" then
    match parseFloat? value with
    | some q => { st with profit_factor := some q }
    | _ => st
  else if lcont h "payoff" then
    match parseFloat? (value.filter (fun c => !(c == ',') && !(c == '$'))) with
    | some q => { st with expected_payoff := some q }
    | _ => st
  else if lcont h "drawdown" then
    match parseFloat? (value.filter (fun c => !(c == '%') && !(c == ','))) with
    | some q => { st with drawdown := some q }
    | _ => st
  else
    let param_value :=
      if value.contains '.' then
        match parseFloat? value with
        | some q => PyVal.float q
        | _ => PyVal.str value
      else
        match parseInt? value with
        | some i => PyVal.int i
        | _ => PyVal.str value
    { st with parameters := dictSet st.parameters header param_value }

/-- One body row (1-based index i) of the HTML optimization table. -/
def htmlRowToResult (headers : List PStr) (i : ℕ) (cols : List PStr) :
    Option OptimizationResult :=
  if cols.length < 2 then Option.none else
  let values := cols.map pyStrip
  let pass_number : ℤ :=
    match values.head? with
    | some v => if !v.isEmpty && v.all Char.isDigit then (readNat v : ℤ) else (i : ℤ)
    | _ => (i : ℤ)
  let st := (headers.zip values).foldl (fun st p => htmlCell st p.1 p.2) {}
  some ⟨pass_number, st.parameters, st.profit, st.total_trades, st.profit_factor,
        st.expected_payoff, st.drawdown, Option.none, Option.none, Option.none, Option.none⟩

/-- Model of MT5Parser._parse_optimization_html on a parsed document. -/
def parse_optimization_html (d : HtmlDoc) : Except PyErr (List OptimizationResult) :=
  match findOptTable d with
  | Option.none => throw .valueError
  | some table =>
    let headers := (table.rows.headD []).map pyStrip
    pure (((table.rows.drop 1).enumFrom 1).foldl
      (fun acc p =>
        match htmlRowToResult headers p.1 p.2 with
        | some r => acc ++ [r]
        | _ => acc) [])

/-- One uploaded report text as the parser sees it: its XML parse (none
when the text is not well-formed XML) and its HTML tokenisation (lenient,
always available). -/
structure ReportText where
  xml : Option XmlElem
  html : HtmlDoc

/-- Model of MT5Parser.parse_optimization_report: dispatch on the
declared file type, ValueError on an unsupported one. -/
def parse_optimization_report (content : ReportText) (file_type : PStr) :
    Except PyErr (List OptimizationResult) :=
  if file_type = ("xml").toList then
    match content.xml with
    | Option.none => throw .valueError
    | some root => parse_optimization_xml root
  else if file_type = ("html").toList then
    parse_optimization_html content.html
  else throw .valueError

/-- Python str.split on a one-character separator, keeping empty pieces. -/
def splitChar (sep : Char) : PStr → List PStr
  | [] => [[]]
  | c :: cs =>
    let r := splitChar sep cs
    if c = sep then [] :: r else (c :: r.headI) :: r.tail

/-- Python str.split(sep, 1): the text before and after the first
occurrence of the separator, none when the separator is absent. -/
def splitFirst (sep : Char) : PStr → Option (PStr × PStr)
  | [] => Option.none
  | c :: cs =>
    if c = sep then some ([], cs)
    else (splitFirst sep cs).map (fun p => (c :: p.1, p.2))

/-- Python str.split on the two-character separator of .set lines: a
greedy left-to-right scan for bar pairs, keeping empty pieces. -/
def splitBars : PStr → List PStr
  | [] => [[]]
  | [c] => [[c]]
  | c :: d :: cs =>
    if c = '|' ∧ d = '|' then [] :: splitBars cs
    else
      let r := splitBars (d :: cs)
      (c :: r.headI) :: r.tail

/-- Parameter values handled by the .set codec, tagged by the Python
runtime kind that generate_set_file dispatches on (floats idealised as
rationals). -/
inductive ParamValue where
  | bool : Bool → ParamValue
  | int : ℤ → ParamValue
  | float : ℚ → ParamValue
  | str : PStr → ParamValue
deriving DecidableEq, Repr

/-- The value text and type tag that generate_set_file writes for one
parameter value. -/
def renderParam : ParamValue → PStr × PStr
  | .bool b => (if b then ("true").toList else ("false").toList, ("bool").toList)
  | .int i => (intToDigits i, ("int").toList)
  | .float q => (formatFixed8 q, ("double").toList)
  | .str s => (s, ("string").toList)

/-- One parameter line of a .set file: name=value||type||. -/
def setFileLine (kv : PStr × ParamValue) : PStr :=
  let (vs, ty) := renderParam kv.2
  kv.1 ++ '=' :: (vs ++ '|' :: '|' :: ty ++ ['|', '|'])

/-- Python newline join over a list of lines. -/
def joinLines : List PStr → PStr
  | [] => []
  | [l] => l
  | l :: ls => l ++ '\n' :: joinLines ls

/-- Model of SetFileGenerator.generate_set_file; the timestamp written by
datetime.now().strftime is passed in explicitly. -/
def generate_set_file (parameters : PyDict ParamValue) (preset_name : PStr)
    (now : PStr) : PStr :=
  let header :=
    [("; saved automatically on ").toList ++ now,
     ("; this file contains last used input parameters for testing/optimizing ").toList
       ++ preset_name ++ (" expert advisor").toList,
     [';']]
  joinLines (header ++ parameters.map setFileLine)

/-- One line of the .set decoding loop of SetFileGenerator.parse_set_file. -/
def parseSetLine (params : PyDict ParamValue) (line : PStr) : PyDict ParamValue :=
  let l := pyStrip line
  if l.isEmpty then params
  else if l.headD ' ' = ';' then params
  else if l.contains '=' then
    match splitFirst '=' l with
    | some (p0, p1) =>
      let param_name := pyStrip p0
      let value_parts := splitBars p1
      let value_str := pyStrip value_parts.headI
      let param_type :=
        match value_parts with
        | _ :: t :: _ => pyStrip t
        | _ => ("string").toList
      let param_value :=
        if param_type = ("bool").toList then
          ParamValue.bool (value_str.map Char.toLower = ("true").toList)
        else if param_type = ("int").toList then
          ParamValue.int ((parseInt? value_str).getD 0)
        else if param_type = ("double").toList then
          ParamValue.float ((parseFloat? value_str).getD 0)
        else ParamValue.str value_str
      dictSet params param_name param_value
    | _ => params
  else params

/-- Model of SetFileGenerator.parse_set_file. -/
def parse_set_file (content : PStr) : PyDict ParamValue :=
  (splitChar '\n' content).foldl parseSetLine []

/-- The metric entries of a stored backtest-report dictionary as produced
by BacktestReport.to_dict, restricted to the keys the preset comparator
reads: the first three are always numeric there, the last two can be the
Python value None. -/
structure PresetBacktestMetrics where
  total_net_profit : ℚ
  maximal_drawdown : ℚ
  profit_factor : ℚ
  sharpe_ratio : Option ℚ := Option.none
  recovery_factor : Option ℚ := Option.none
deriving DecidableEq, Repr

/-- The Preset dataclass of src/backend/preset_manager.py (creation
timestamp omitted; such report dictionaries are never empty, so Python
truthiness of backtest_report coincides with presence). -/
structure Preset where
  id : PStr
  name : PStr
  parameters : PyDict PyVal := []
  optimization_metrics : PyDict PyVal := []
  backtest_report : Option PresetBacktestMetrics := Option.none
  notes : PStr := []
deriving DecidableEq, Repr

/-- One best-of entry of the metrics comparison. -/
structure BestEntry where
  preset_id : PStr
  name : PStr
  value : ℚ
deriving DecidableEq, Repr

/-- The chart_data arrays of compare_presets; the sharpe and recovery
arrays can hold the Python value None. -/
structure ChartData where
  labels : List PStr := []
  profit : List ℚ := []
  drawdown : List ℚ := []
  profit_factor : List ℚ := []
  sharpe_ratio : List (Option ℚ) := []
  recovery_factor : List (Option ℚ) := []
deriving DecidableEq, Repr

/-- The five best-of selections of _calculate_metrics_comparison. -/
structure MetricsComparison where
  best_profit : Option BestEntry := Option.none
  best_sharpe : Option BestEntry := Option.none
  best_recovery : Option BestEntry := Option.none
  lowest_drawdown : Option BestEntry := Option.none
  best_profit_factor : Option BestEntry := Option.none
deriving DecidableEq, Repr

/-- The running state of the best-of fold: the sentinel values float(inf)
and float(-inf) are modelled as none, below (resp. above) every rational. -/
structure BestAcc where
  best_profit_value : Option ℚ := Option.none
  best_sharpe_value : Option ℚ := Option.none
  best_recovery_value : Option ℚ := Option.none
  lowest_drawdown_value : Option ℚ := Option.none
  best_pf_value : Option ℚ := Option.none
  metrics : MetricsComparison := {}

/-- Whether a candidate beats the running best of a highest-wins metric
(a none sentinel is minus infinity). -/
def beatsHigh (best : Option ℚ) (v : ℚ) : Bool :=
  match best with
  | Option.none => true
  | some b => decide (b < v)

/-- Whether a candidate beats the running best of a lowest-wins metric
(a none sentinel is plus infinity). -/
def beatsLow (best : Option ℚ) (v : ℚ) : Bool :=
  match best with
  | Option.none => true
  | some b => decide (v < b)

/-- The body of the best-of loop for one preset carrying a backtest
report. -/
def updateBest (acc : BestAcc) (p : Preset) (r : PresetBacktestMetrics) : BestAcc :=
  let acc :=
    if beatsHigh acc.best_profit_value r.total_net_profit then
      { acc with best_profit_value := some r.total_net_profit,
                 metrics := { acc.metrics with
                   best_profit := some ⟨p.id, p.name, r.total_net_profit⟩ } }
    else acc
  let acc :=
    match r.sharpe_ratio with
    | some v =>
      if decide (v ≠ 0) && beatsHigh acc.best_sharpe_value v then
        { acc with best_sharpe_value := some v,
                   metrics := { acc.metrics with best_sharpe := some ⟨p.id, p.name, v⟩ } }
      else acc
    | _ => acc
  let acc :=
    match r.recovery_factor with
    | some v =>
      if decide (v ≠ 0) && beatsHigh acc.best_recovery_value v then
        { acc with best_recovery_value := some v,
                   metrics := { acc.metrics with best_recovery := some ⟨p.id, p.name, v⟩ } }
      else acc
    | _ => acc
  let acc :=
    if beatsLow acc.lowest_drawdown_value r.maximal_drawdown then
      { acc with lowest_drawdown_value := some r.maximal_drawdown,
                 metrics := { acc.metrics with
                   lowest_drawdown := some ⟨p.id, p.name, r.maximal_drawdown⟩ } }
    else acc
  let acc :=
    if beatsHigh acc.best_pf_value r.profit_factor then
      { acc with best_pf_value := some r.profit_factor,
                 metrics := { acc.metrics with
                   best_profit_factor := some ⟨p.id, p.name, r.profit_factor⟩ } }
    else acc
  acc

/-- Model of PresetManager._calculate_metrics_comparison. -/
def calculate_metrics_comparison (presets : List Preset) : MetricsComparison :=
  (presets.foldl (fun (acc : BestAcc) (p : Preset) =>
    match p.backtest_report with
    | some r => updateBest acc p r
    | _ => acc) {}).metrics

/-- The chart_data accumulation of compare_presets over the resolved
presets. -/
def buildChart (presets : List Preset) : ChartData :=
  presets.foldl (fun cd p =>
    match p.backtest_report with
    | some r =>
      ⟨cd.labels ++ [p.name], cd.profit ++ [r.total_net_profit],
       cd.drawdown ++ [r.maximal_drawdown], cd.profit_factor ++ [r.profit_factor],
       cd.sharpe_ratio ++ [r.sharpe_ratio], cd.recovery_factor ++ [r.recovery_factor]⟩
    | _ => cd) {}

/-- The result dictionary of compare_presets: the summary entries (ids of
the resolved presets in order, with a flag for an attached backtest
report), the chart arrays, and the metrics comparison. -/
structure ComparisonResult where
  presets : List (PStr × Bool)
  chart_data : ChartData
  metrics_comparison : MetricsComparison
deriving DecidableEq, Repr

/-- Model of PresetManager.compare_presets over the id-keyed preset
store; none models the error dictionary returned when no id resolves. -/
def compare_presets (store : PyDict Preset) (preset_ids : List PStr) :
    Option ComparisonResult :=
  let presets_data := preset_ids.filterMap (fun i => List.lookup i store)
  if presets_data.isEmpty then Option.none
  else some
    ⟨presets_data.map (fun (p : Preset) => (p.id, p.backtest_report.isSome)),
     buildChart presets_data,
     calculate_metrics_comparison presets_data⟩

/-- The filter thresholds of the selection engine read as a specification:
a record satisfies the criteria when profit and trade count meet their
bounds and every optional metric that is present with a nonzero value
meets its bound whenever that bound is supplied with a nonzero value. -/
def SpecKeep (c : EffectiveCriteria) (r : OptimizationResult) : Prop :=
  c.min_profit ≤ r.profit ∧ c.min_trades ≤ r.total_trades ∧
  (∀ v, r.profit_factor = some v → v ≠ 0 → c.min_profit_factor ≤ v) ∧
  (∀ m v, c.max_drawdown = some m → m ≠ 0 → r.drawdown_percent = some v → v ≠ 0 → v ≤ m) ∧
  (∀ m v, c.min_sharpe = some m → m ≠ 0 → r.sharpe_ratio = some v → v ≠ 0 → m ≤ v) ∧
  (∀ m v, c.min_recovery = some m → m ≠ 0 → r.recovery_factor = some v → v ≠ 0 → m ≤ v)

/-- The first forward record with ==-equal parameters exists and has
positive profit: the cross-validation predicate a surviving record must
satisfy to be kept. -/
def forwardValidated (fwd : List OptimizationResult) (r : OptimizationResult) : Bool :=
  match fwd.find? (fun f => pyDictEq r.parameters f.parameters) with
  | some f => decide (0 < f.profit)
  | _ => false

/-- Success condition of float(element.text) on an optional metric
element. -/
def optMetricOk : Option XmlElem → Bool
  | Option.none => true
  | some e =>
    match e.text with
    | Option.none => false
    | some s => (parseFloat? s).isSome

/-- Success condition of the XML row loop body on one Row element: the
Pass attribute, the mandatory Result and Trades children and every
present optional metric child must parse. -/
def rowOk (row : XmlElem) : Bool :=
  (match xmlAttr row "Pass" with
   | Option.none => true
   | some s => (parseInt? s).isSome) &&
  (match findChild? row "Result" with
   | Option.none => false
   | some e =>
     match e.text with
     | Option.none => true
     | some s => s.isEmpty || (parseFloat? s).isSome) &&
  (match findChild? row "Trades" with
   | Option.none => false
   | some e =>
     match e.text with
     | Option.none => true
     | some s => s.isEmpty || (parseInt? s).isSome) &&
  optMetricOk (findChild? row "ProfitFactor") &&
  optMetricOk (findChild? row "ExpectedPayoff") &&
  optMetricOk (findChild? row "Drawdown") &&
  optMetricOk (findChild? row "Sharpe") &&
  optMetricOk (findChild? row "Recovery")

/-- Characters over which the modelled numeric builtins coincide with the
Python float and int builtins: decimal digits, sign characters, the
decimal point and ASCII whitespace.  This excludes the exponent,
underscore-grouping, infinity/nan and non-ASCII-digit forms that the
builtins also accept but the model omits. -/
def plainNumChar (c : Char) : Bool :=
  c.isDigit || c == '-' || c == '+' || c == '.' || pyIsSpace c

/-- A string entirely over the plain numeric alphabet. -/
def plainStr (s : PStr) : Bool := s.all plainNumChar

/-- Plainness of an optional text, an absent text being plain. -/
def plainOptText : Option PStr → Bool
  | Option.none => true
  | some s => plainStr s

/-- Plainness of the text of an optional child element. -/
def plainChildText : Option XmlElem → Bool
  | Option.none => true
  | some e => plainOptText e.text

/-- Every string of one Row element that reaches a numeric builtin is
over the plain alphabet: the Pass attribute, the Result and Trades texts
and the texts of the optional metric children. -/
def rowPlain (row : XmlElem) : Bool :=
  plainOptText (xmlAttr row "Pass") &&
  plainChildText (findChild? row "Result") &&
  plainChildText (findChild? row "Trades") &&
  plainChildText (findChild? row "ProfitFactor") &&
  plainChildText (findChild? row "ExpectedPayoff") &&
  plainChildText (findChild? row "Drawdown") &&
  plainChildText (findChild? row "Sharpe") &&
  plainChildText (findChild? row "Recovery")

/-- The leading (pass-number) cell of every data row of an HTML table is
over the plain alphabet, so the isdigit-guarded int conversion of the
source coincides with the model. -/
def tablePassPlain (t : HtmlTable) : Bool :=
  (t.rows.drop 1).all (fun r => plainStr (pyStrip (r.headD [])))

/-- Whether a character list contains two adjacent bars. -/
def hasBarBar : PStr → Bool
  | [] => false
  | [_] => false
  | c :: d :: cs => (c == '|' && d == '|') || hasBarBar (d :: cs)

/-- A parameter name survives the .set line format: no newline, no equals
sign, strip-invariant, and not introducing a comment marker. -/
def goodKey (k : PStr) : Prop :=
  pyStrip k = k ∧ ¬ k.contains '\n' ∧ ¬ k.contains '=' ∧ k.headD ' ' ≠ ';'

/-- A string parameter value survives the .set line format: no newline,
strip-invariant, no adjacent bars and no trailing bar. -/
def goodStrVal (v : PStr) : Prop :=
  pyStrip v = v ∧ ¬ v.contains '\n' ∧ hasBarBar (v ++ ['|']) = false

/-- The values a .set round trip can be expected to preserve: every
non-string value, and the well-behaved strings. -/
def goodVal : ParamValue → Prop
  | .str s => goodStrVal s
  | _ => True

/-- What decoding an encoded value yields: floats come back as their
8-decimal rounding, everything else is unchanged. -/
def roundtripVal : ParamValue → ParamValue
  | .float q => .float ((round8 q : ℚ) / 100000000)
  | v => v

/-- The chart arrays produced when exactly one compared preset carries a
backtest report. -/
def chartOne (p : Preset) (r : PresetBacktestMetrics) : ChartData :=
  ⟨[p.name], [r.total_net_profit], [r.maximal_drawdown], [r.profit_factor],
   [r.sharpe_ratio], [r.recovery_factor]⟩

/-- The best-of selections produced when exactly one compared preset
carries a backtest report: profit, drawdown and profit factor always
point at it, Sharpe and recovery only when present with a nonzero value. -/
def bestsOne (p : Preset) (r : PresetBacktestMetrics) : MetricsComparison :=
  ⟨some ⟨p.id, p.name, r.total_net_profit⟩,
   (match r.sharpe_ratio with
    | some v => if v ≠ 0 then some ⟨p.id, p.name, v⟩ else Option.none
    | _ => Option.none),
   (match r.recovery_factor with
    | some v => if v ≠ 0 then some ⟨p.id, p.name, v⟩ else Option.none
    | _ => Option.none),
   some ⟨p.id, p.name, r.maximal_drawdown⟩,
   some ⟨p.id, p.name, r.profit_factor⟩⟩

/-- A sample record that passes the default filter while carrying a
present zero profit factor. -/
def sampleZeroPf : OptimizationResult :=
  { pass_number := 1, parameters := [], profit := 5, total_trades := 20,
    profit_factor := some 0 }

/-- A sample record passing the default filter with no optional metrics. -/
def samplePlain : OptimizationResult :=
  { pass_number := 2, parameters := [(("x").toList, PyVal.int 1)], profit := 3,
    total_trades := 30 }

/-- A well-formed XML Row element with full metrics. -/
def sampleXmlRow : XmlElem :=
  .mk ("Row").toList [(("Pass").toList, ("1").toList)] Option.none
    [.mk ("Parameter").toList [(("name").toList, ("StopLoss").toList)]
       (some ("50").toList) [],
     .mk ("Result").toList [] (some ("1250.50").toList) [],
     .mk ("Trades").toList [] (some ("45").toList) [],
     .mk ("ProfitFactor").toList [] (some ("1.85").toList) []]

/-- A well-formed XML Row element lacking the Result and Trades children. -/
def sampleBadXmlRow : XmlElem := .mk ("Row").toList [] Option.none []

/-- A well-formed XML document whose single Row is complete. -/
def sampleXmlDoc : XmlElem := .mk ("Root").toList [] Option.none [sampleXmlRow]

/-- A well-formed XML document whose single Row lacks mandatory children. -/
def sampleBadXmlDoc : XmlElem := .mk ("Root").toList [] Option.none [sampleBadXmlRow]

/-- A backtest report dictionary with absent Sharpe, as the backtest
parser always produces. -/
def sampleMetricsNoSharpe : PresetBacktestMetrics :=
  { total_net_profit := 100, maximal_drawdown := 20, profit_factor := 3,
    sharpe_ratio := Option.none, recovery_factor := some 5 }

/-- A preset carrying the sample backtest report. -/
def samplePresetWithReport : Preset :=
  { id := ("a").toList, name := ("P1").toList,
    backtest_report := some sampleMetricsNoSharpe }

/-- A preset without a backtest report. -/
def samplePresetBare : Preset := { id := ("b").toList, name := ("P2").toList }

/-- A two-preset store of which only the first preset carries a report. -/
def sampleStore : PyDict Preset :=
  [(("a").toList, samplePresetWithReport), (("b").toList, samplePresetBare)]

/-- The record list the XML parser produces from the sample document. -/
def sampleParsedXml : List OptimizationResult :=
  [{ pass_number := 1, parameters := [(("StopLoss").toList, PyVal.int 50)],
     profit := mkRat 2501 2, total_trades := 45, profit_factor := some (mkRat 37 20) }]

/-- Sample backtest rows exercising split-label truncation and defaults. -/
def sampleBacktestRows : List (List PStr) :=
  [[("Total net profit").toList, ("1 234.50$").toList],
   [("Short positions (won %)").toList, ("45 (56.2%)").toList]]

/-! Helper lemmas: character classes and stripping. -/

theorem digitCh_isDigit {n : ℕ} (h : n < 10) : (digitCh n).isDigit = true := by
  interval_cases n <;> decide

theorem digitVal_digitCh {n : ℕ} (h : n < 10) : digitVal (digitCh n) = n := by
  interval_cases n <;> decide

theorem isDigit_not_space {c : Char} (h : c.isDigit = true) : pyIsSpace c = false := by
  simp only [pyIsSpace, Bool.or_eq_false_iff, beq_eq_false_iff_ne, ne_eq]
  refine ⟨⟨⟨⟨⟨?_, ?_⟩, ?_⟩, ?_⟩, ?_⟩, ?_⟩ <;>
    (intro e; rw [e] at h; exact absurd h (by decide))

theorem isDigit_ne_minus {c : Char} (h : c.isDigit = true) : c ≠ '-' := by
  intro e; rw [e] at h; exact absurd h (by decide)

theorem isDigit_ne_plus {c : Char} (h : c.isDigit = true) : c ≠ '+' := by
  intro e; rw [e] at h; exact absurd h (by decide)

theorem isDigit_ne_dot {c : Char} (h : c.isDigit = true) : c ≠ '.' := by
  intro e; rw [e] at h; exact absurd h (by decide)

theorem dropWhile_id_of_head {l : PStr} (h : pyIsSpace (l.headD '0') = false) :
    l.dropWhile pyIsSpace = l := by
  cases l with
  | nil => rfl
  | cons x xs => simp only [List.headD_cons] at h; simp [List.dropWhile_cons, h]

theorem pyStrip_eq_self {l : PStr} (h1 : pyIsSpace (l.headD '0') = false)
    (h2 : pyIsSpace (l.reverse.headD '0') = false) : pyStrip l = l := by
  unfold pyStrip
  rw [dropWhile_id_of_head h1, dropWhile_id_of_head h2, List.reverse_reverse]

theorem pyStrip_eq_self_of_all {l : PStr} (h : ∀ c ∈ l, pyIsSpace c = false) :
    pyStrip l = l := by
  cases hl : l with
  | nil => rfl
  | cons x xs =>
    refine pyStrip_eq_self ?_ ?_
    · simp only [List.headD_cons]; exact h x (by simp [hl])
    · rcases hr : (x :: xs).reverse with _ | ⟨y, ys⟩
      · simp at hr
      · simp only [List.headD_cons]
        refine h y ?_
        rw [hl, ← List.reverse_reverse (x :: xs), hr]; simp

/-! Helper lemmas: decimal digit strings. -/

theorem natToDigitsAux_congr (n : ℕ) : ∀ f1 f2, n < f1 → n < f2 →
    natToDigitsAux f1 n = natToDigitsAux f2 n := by
  induction n using Nat.strong_induction_on with
  | _ n ih =>
    intro f1 f2 h1 h2
    cases f1 with
    | zero => omega
    | succ f1 =>
      cases f2 with
      | zero => omega
      | succ f2 =>
        simp only [natToDigitsAux]
        by_cases h : n < 10
        · simp [h]
        · simp only [h, if_false]
          rw [ih (n / 10) (Nat.div_lt_self (by omega) (by omega)) f1 f2 (by omega) (by omega)]

theorem natToDigits_unfold (n : ℕ) : natToDigits n =
    if n < 10 then [digitCh n] else natToDigits (n / 10) ++ [digitCh (n % 10)] := by
  unfold natToDigits
  conv_lhs => rw [natToDigitsAux]
  by_cases h : n < 10
  · simp [h]
  · simp only [h, if_false]
    rw [natToDigitsAux_congr (n / 10) n (n / 10 + 1) (by omega) (by omega)]

theorem readNat_append_one (l : PStr) (c : Char) :
    readNat (l ++ [c]) = readNat l * 10 + digitVal c := by
  unfold readNat
  rw [List.foldl_append]
  rfl

theorem readNat_natToDigits (n : ℕ) : readNat (natToDigits n) = n := by
  induction n using Nat.strong_induction_on with
  | _ n ih =>
    rw [natToDigits_unfold]
    by_cases h : n < 10
    · simp only [h, if_true]
      show 0 * 10 + digitVal (digitCh n) = n
      rw [digitVal_digitCh h]; omega
    · simp only [h, if_false]
      rw [readNat_append_one, ih (n / 10) (Nat.div_lt_self (by omega) (by omega)),
        digitVal_digitCh (by omega)]
      omega

theorem natToDigits_ne_nil (n : ℕ) : natToDigits n ≠ [] := by
  rw [natToDigits_unfold]
  by_cases h : n < 10 <;> simp [h]

theorem natToDigits_all_digit (n : ℕ) : ∀ c ∈ natToDigits n, c.isDigit = true := by
  induction n using Nat.strong_induction_on with
  | _ n ih =>
    rw [natToDigits_unfold]
    by_cases h : n < 10
    · simp only [h, if_true, List.mem_singleton]
      rintro c rfl; exact digitCh_isDigit h
    · simp only [h, if_false, List.mem_append, List.mem_singleton]
      rintro c (hc | rfl)
      · exact ih (n / 10) (Nat.div_lt_self (by omega) (by omega)) c hc
      · exact digitCh_isDigit (by omega)

theorem parseNatDigits_natToDigits (n : ℕ) : parseNatDigits? (natToDigits n) = some n := by
  unfold parseNatDigits?
  rw [List.all_eq_true.mpr (natToDigits_all_digit n)]
  rw [List.isEmpty_eq_false_iff_exists_mem.mpr ?_]
  · simp [readNat_natToDigits]
  · rcases hl : natToDigits n with _ | ⟨c, cs⟩
    · exact absurd hl (natToDigits_ne_nil n)
    · exact ⟨c, by simp⟩

theorem pyStrip_natToDigits (n : ℕ) : pyStrip (natToDigits n) = natToDigits n :=
  pyStrip_eq_self_of_all (fun c hc => isDigit_not_space (natToDigits_all_digit n c hc))

theorem parseInt_intToDigits (i : ℤ) : parseInt? (intToDigits i) = some i := by
  unfold intToDigits parseInt?
  by_cases h : i < 0
  · simp only [h, if_true]
    rw [pyStrip_eq_self_of_all ?_]
    · simp [parseNatDigits_natToDigits, Int.ofNat_eq_coe, abs_of_neg h]
    · intro c hc
      rcases List.mem_cons.mp hc with rfl | hc
      · decide
      · exact isDigit_not_space (natToDigits_all_digit _ c hc)
  · simp only [h, if_false]
    rw [pyStrip_natToDigits]
    rcases hl : natToDigits i.natAbs with _ | ⟨c, cs⟩
    · exact absurd hl (natToDigits_ne_nil _)
    · have hc : c.isDigit = true := natToDigits_all_digit _ c (by rw [hl]; simp)
      simp only [if_neg (isDigit_ne_minus hc), if_neg (isDigit_ne_plus hc)]
      rw [← hl, parseNatDigits_natToDigits]
      simp only [Option.map_some', Option.some.injEq, Int.ofNat_eq_coe]
      omega

/-! Helper lemmas: fixed-point formatting and parsing. -/

theorem takeWhile_append_stop {p : Char → Bool} {l t : PStr} {x : Char}
    (hl : ∀ c ∈ l, p c = true) (hx : p x = false) :
    (l ++ x :: t).takeWhile p = l := by
  induction l with
  | nil => simp [List.takeWhile_cons, hx]
  | cons a as ih =>
    simp only [List.cons_append, List.takeWhile_cons, hl a (by simp), if_true]
    rw [ih (fun c hc => hl c (by simp [hc]))]

theorem dropWhile_append_stop {p : Char → Bool} {l t : PStr} {x : Char}
    (hl : ∀ c ∈ l, p c = true) (hx : p x = false) :
    (l ++ x :: t).dropWhile p = x :: t := by
  induction l with
  | nil => simp [List.dropWhile_cons, hx]
  | cons a as ih =>
    simp only [List.cons_append, List.dropWhile_cons, hl a (by simp), if_true]
    exact ih (fun c hc => hl c (by simp [hc]))

theorem readNat_replicate_zeros (k : ℕ) (l : PStr) :
    readNat (List.replicate k '0' ++ l) = readNat l := by
  induction k with
  | zero => simp
  | succ k ih =>
    simp only [List.replicate_succ, List.cons_append]
    unfold readNat at *
    simp only [List.foldl_cons]
    have h0 : 0 * 10 + digitVal '0' = 0 := by decide
    rw [h0]
    exact ih

theorem natToDigits_length_le : ∀ k n, 0 < k → n < 10 ^ k → (natToDigits n).length ≤ k := by
  intro k
  induction k with
  | zero => omega
  | succ k ih =>
    intro n _ hn
    rw [natToDigits_unfold]
    by_cases h : n < 10
    · simp [h]
    · simp only [h, if_false, List.length_append, List.length_singleton]
      have hk : 0 < k := by
        by_contra hk0
        have : k = 0 := by omega
        subst this
        simp at hn
        omega
      have hdiv : n / 10 < 10 ^ k := by
        rw [Nat.div_lt_iff_lt_mul (by omega)]
        calc n < 10 ^ (k + 1) := hn
        _ = 10 ^ k * 10 := by ring
      have := ih (n / 10) hk hdiv
      omega

theorem formatFixed8_not_space (q : ℚ) : ∀ c ∈ formatFixed8 q, pyIsSpace c = false := by
  intro c hc
  simp only [formatFixed8] at hc
  rcases List.mem_append.mp hc with h1 | h2
  · rcases List.mem_append.mp h1 with h3 | h4
    · by_cases hn : round8 q < 0
      · rw [if_pos hn] at h3
        rw [List.mem_singleton.mp h3]
        decide
      · rw [if_neg hn] at h3
        exact absurd h3 (List.not_mem_nil c)
    · exact isDigit_not_space (natToDigits_all_digit _ c h4)
  · rcases List.mem_cons.mp h2 with rfl | h5
    · decide
    · unfold padZeros at h5
      rcases List.mem_append.mp h5 with h6 | h7
      · rw [(List.mem_replicate.mp h6).2]
        decide
      · exact isDigit_not_space (natToDigits_all_digit _ c h7)

theorem parseUFloat_digits_dot (a : ℕ) :
    parseUFloat? (natToDigits (a / 100000000) ++ '.' ::
      padZeros 8 (natToDigits (a % 100000000))) = some ((a : ℚ) / 100000000) := by
  unfold parseUFloat?
  rw [takeWhile_append_stop (p := fun c => decide (c ≠ '.'))
        (fun c hc => by simp [isDigit_ne_dot (natToDigits_all_digit _ c hc)]) (by simp),
      dropWhile_append_stop (p := fun c => decide (c ≠ '.'))
        (fun c hc => by simp [isDigit_ne_dot (natToDigits_all_digit _ c hc)]) (by simp)]
  have hne : (natToDigits (a / 100000000)).isEmpty = false := by
    rcases hl : natToDigits (a / 100000000) with _ | ⟨c, cs⟩
    · exact absurd hl (natToDigits_ne_nil _)
    · rfl
  have hdig : (natToDigits (a / 100000000)).all Char.isDigit = true :=
    List.all_eq_true.mpr (natToDigits_all_digit _)
  have hfracdig : (padZeros 8 (natToDigits (a % 100000000))).all Char.isDigit = true := by
    refine List.all_eq_true.mpr ?_
    intro c hc
    unfold padZeros at hc
    rcases List.mem_append.mp hc with h | h
    · rcases List.mem_replicate.mp h with ⟨_, rfl⟩
      decide
    · exact natToDigits_all_digit _ c h
  have hlen : (padZeros 8 (natToDigits (a % 100000000))).length = 8 := by
    unfold padZeros
    have hle : (natToDigits (a % 100000000)).length ≤ 8 :=
      natToDigits_length_le 8 _ (by norm_num) (by
        have : a % 100000000 < 100000000 := Nat.mod_lt a (by norm_num)
        calc a % 100000000 < 100000000 := this
        _ = 10 ^ 8 := by norm_num)
    simp only [List.length_append, List.length_replicate]
    omega
  have hreadfrac : readNat (padZeros 8 (natToDigits (a % 100000000))) = a % 100000000 := by
    unfold padZeros
    rw [readNat_replicate_zeros, readNat_natToDigits]
  simp only [hne, hdig, hfracdig, hlen, Bool.not_false, Bool.and_self, Bool.true_and,
    Bool.and_true, if_true, readNat_natToDigits, hreadfrac]
  have hsplit : (100000000 : ℚ) * ((a / 100000000 : ℕ) : ℚ) + ((a % 100000000 : ℕ) : ℚ)
      = (a : ℚ) := by exact_mod_cast Nat.div_add_mod a 100000000
  have hE : ((10 : ℚ) ^ 8) = 100000000 := by norm_num
  rw [hE, ← hsplit]
  field_simp
  ring

theorem parseFloat_formatFixed8 (q : ℚ) :
    parseFloat? (formatFixed8 q) = some ((round8 q : ℚ) / 100000000) := by
  unfold parseFloat?
  rw [pyStrip_eq_self_of_all (formatFixed8_not_space q)]
  by_cases hn : round8 q < 0
  · have hf : formatFixed8 q = '-' :: (natToDigits ((round8 q).natAbs / 100000000) ++ '.' ::
        padZeros 8 (natToDigits ((round8 q).natAbs % 100000000))) := by
      simp [formatFixed8, hn]
    rw [hf]
    simp only [if_pos rfl, parseUFloat_digits_dot, Option.map_some', Option.some.injEq]
    rw [if_pos trivial]
    have h1 : (((round8 q).natAbs : ℕ) : ℤ) = -(round8 q) := by omega
    have habs : (((round8 q).natAbs : ℕ) : ℚ) = -((round8 q : ℚ)) := by
      rw [show (((round8 q).natAbs : ℕ) : ℚ) = ((((round8 q).natAbs : ℕ) : ℤ) : ℚ) from
        (Int.cast_natCast _).symm, h1, Int.cast_neg]
    rw [habs]
    congr 1
    ring
  · have hf : formatFixed8 q = natToDigits ((round8 q).natAbs / 100000000) ++ '.' ::
        padZeros 8 (natToDigits ((round8 q).natAbs % 100000000)) := by
      simp [formatFixed8, hn]
    rcases hl : natToDigits ((round8 q).natAbs / 100000000) with _ | ⟨c, cs⟩
    · exact absurd hl (natToDigits_ne_nil _)
    · have hc : c.isDigit = true := natToDigits_all_digit _ c (by rw [hl]; simp)
      rw [hf, hl, List.cons_append]
      simp only [if_neg (isDigit_ne_minus hc), if_neg (isDigit_ne_plus hc)]
      rw [← List.cons_append, ← hl, parseUFloat_digits_dot]
      have h1 : (((round8 q).natAbs : ℕ) : ℤ) = round8 q := by omega
      have habs : (((round8 q).natAbs : ℕ) : ℚ) = ((round8 q : ℚ)) := by
        rw [show (((round8 q).natAbs : ℕ) : ℚ) = ((((round8 q).natAbs : ℕ) : ℤ) : ℚ) from
          (Int.cast_natCast _).symm, h1]
      rw [habs]

theorem round8_sub_le (q : ℚ) : |(round8 q : ℚ) - q * 100000000| ≤ 1 / 2 := by
  have hd : (0:ℤ) < (q.den : ℤ) := by exact_mod_cast q.den_pos
  set A := 2 * 100000000 * q.num + (q.den : ℤ) with hA
  set B := 2 * (q.den : ℤ) with hB
  have hBpos : (0:ℤ) < B := by omega
  have h1 : B * Int.ediv A B + Int.emod A B = A := Int.ediv_add_emod A B
  have h2 : (0:ℤ) ≤ Int.emod A B := Int.emod_nonneg A (by omega)
  have h3 : Int.emod A B < B := Int.emod_lt_of_pos A hBpos
  have hr : round8 q = Int.ediv A B := rfl
  have hq1 : (B:ℚ) * ((round8 q : ℚ)) + ((Int.emod A B : ℤ) : ℚ) = (A:ℚ) := by
    rw [hr]; exact_mod_cast h1
  have hden0 : ((q.den : ℕ) : ℚ) ≠ 0 := by
    exact_mod_cast q.den_pos.ne'
  have hnum : (q.num : ℚ) = q * ((q.den : ℕ) : ℚ) := (div_eq_iff hden0).mp (Rat.num_div_den q)
  have hA' : (A:ℚ) = 2 * 100000000 * (q * ((q.den : ℕ) : ℚ)) + ((q.den : ℕ) : ℚ) := by
    rw [hA]; push_cast; rw [hnum]; ring
  have hB' : (B:ℚ) = 2 * ((q.den : ℕ) : ℚ) := by rw [hB]; push_cast; ring
  have hm0 : (0:ℚ) ≤ ((Int.emod A B : ℤ) : ℚ) := by exact_mod_cast h2
  have hm1 : ((Int.emod A B : ℤ) : ℚ) ≤ (B:ℚ) - 1 := by exact_mod_cast (by omega : Int.emod A B ≤ B - 1)
  have hdenq : (0:ℚ) < ((q.den : ℕ) : ℚ) := by exact_mod_cast q.den_pos
  have hdenq1 : (1:ℚ) ≤ ((q.den : ℕ) : ℚ) := by exact_mod_cast q.den_pos
  have hBq : (0:ℚ) < (B:ℚ) := by rw [hB']; linarith
  have key : (B:ℚ) * ((round8 q : ℚ) - q * 100000000)
      = ((q.den : ℕ) : ℚ) - ((Int.emod A B : ℤ) : ℚ) := by
    have e1 : (B:ℚ) * ((round8 q : ℚ) - q * 100000000)
        = (A:ℚ) - ((Int.emod A B : ℤ) : ℚ) - (B:ℚ) * (q * 100000000) := by
      rw [mul_sub]; linarith [hq1]
    rw [e1, hA', hB']; ring
  rw [abs_le]
  constructor
  · have h4 : (B:ℚ) * (-(1/2)) ≤ (B:ℚ) * ((round8 q : ℚ) - q * 100000000) := by
      rw [key, hB']; linarith
    linarith [(mul_le_mul_left hBq).mp h4]
  · have h5 : (B:ℚ) * ((round8 q : ℚ) - q * 100000000) ≤ (B:ℚ) * (1/2) := by
      rw [key, hB']; linarith
    linarith [(mul_le_mul_left hBq).mp h5]

theorem round8_div_close (q : ℚ) :
    |(round8 q : ℚ) / 100000000 - q| ≤ 1 / 100000000 := by
  have h := round8_sub_le q
  have he : (round8 q : ℚ) / 100000000 - q = ((round8 q : ℚ) - q * 100000000) / 100000000 := by
    ring
  rw [he, abs_div, abs_of_pos (show (0:ℚ) < 100000000 by norm_num)]
  have h2 : |(round8 q : ℚ) - q * 100000000| / 100000000 ≤ (1/2) / 100000000 := by
    gcongr
  calc |(round8 q : ℚ) - q * 100000000| / 100000000 ≤ (1/2) / 100000000 := h2
  _ ≤ 1 / 100000000 := by norm_num

/-! Claim C8: the derived win rate. -/

/-- C8: for every BacktestReport, the win_rate value of to_dict equals
profit_trades / total_trades * 100 when total_trades > 0 and 0 otherwise,
and its computation never raises a division-by-zero error. -/
theorem C8_win_rate_total (r : BacktestReport) :
    r.winRateDict = Except.ok
      (if 0 < r.total_trades then (r.profit_trades : ℚ) / (r.total_trades : ℚ) * 100 else 0) := by
  unfold BacktestReport.winRateDict pyDivQ
  by_cases h : (0:ℤ) < r.total_trades
  · have hb : ((r.total_trades : ℤ) : ℚ) ≠ 0 := by
      have h0 : (0:ℚ) < ((r.total_trades : ℤ) : ℚ) := by exact_mod_cast h
      exact h0.ne'
    simp [h, hb]
  · simp [h]
    rfl

/-! Claim C10: zero-valued optional bounds are inert. -/

theorem passesFilter_md_zero (c : EffectiveCriteria) (r : OptimizationResult) :
    passesFilter { c with max_drawdown := some 0 } r
      = passesFilter { c with max_drawdown := Option.none } r := by
  cases hdp : r.drawdown_percent <;>
    simp [passesFilter, mdExcluded, pfExcluded, sharpeExcluded, recoveryExcluded, hdp]

theorem passesFilter_sharpe_zero (c : EffectiveCriteria) (r : OptimizationResult) :
    passesFilter { c with min_sharpe := some 0 } r
      = passesFilter { c with min_sharpe := Option.none } r := by
  cases hs : r.sharpe_ratio <;>
    simp [passesFilter, mdExcluded, pfExcluded, sharpeExcluded, recoveryExcluded, hs]

theorem passesFilter_recovery_zero (c : EffectiveCriteria) (r : OptimizationResult) :
    passesFilter { c with min_recovery := some 0 } r
      = passesFilter { c with min_recovery := Option.none } r := by
  cases hs : r.recovery_factor <;>
    simp [passesFilter, mdExcluded, pfExcluded, sharpeExcluded, recoveryExcluded, hs]

theorem find_best_parameters_congr (c₁ c₂ : SelectionCriteria)
    (hp : passesFilter (mergeCriteria c₁) = passesFilter (mergeCriteria c₂))
    (ht : (mergeCriteria c₁).top_n = (mergeCriteria c₂).top_n)
    (R : List OptimizationResult) (fwd : Option (List OptimizationResult)) :
    find_best_parameters R fwd c₁ = find_best_parameters R fwd c₂ := by
  simp only [find_best_parameters]
  rw [hp, ht]

/-- C10: supplying max_drawdown, min_sharpe or min_recovery as 0 gives
exactly the same selection as leaving the bound unset. -/
theorem C10_zero_bounds_inert (R : List OptimizationResult)
    (fwd : Option (List OptimizationResult)) (c : SelectionCriteria) :
    find_best_parameters R fwd { c with max_drawdown := some 0 }
      = find_best_parameters R fwd { c with max_drawdown := Option.none } ∧
    find_best_parameters R fwd { c with min_sharpe := some 0 }
      = find_best_parameters R fwd { c with min_sharpe := Option.none } ∧
    find_best_parameters R fwd { c with min_recovery := some 0 }
      = find_best_parameters R fwd { c with min_recovery := Option.none } := by
  refine ⟨?_, ?_, ?_⟩
  · refine find_best_parameters_congr _ _ ?_ ?_ R fwd
    · funext r
      exact passesFilter_md_zero (mergeCriteria c) r
    · rfl
  · refine find_best_parameters_congr _ _ ?_ ?_ R fwd
    · funext r
      exact passesFilter_sharpe_zero (mergeCriteria c) r
    · rfl
  · refine find_best_parameters_congr _ _ ?_ ?_ R fwd
    · funext r
      exact passesFilter_recovery_zero (mergeCriteria c) r
    · rfl

/-! Claim C1: what the filter keeps. -/

theorem pf_clause_iff (c : EffectiveCriteria) (r : OptimizationResult) :
    pfExcluded c r = false ↔ (∀ v, r.profit_factor = some v → v ≠ 0 → c.min_profit_factor ≤ v) := by
  cases h : r.profit_factor
  · simp [pfExcluded, h]
  · simp [pfExcluded, h, not_lt]

theorem md_clause_iff (c : EffectiveCriteria) (r : OptimizationResult) :
    mdExcluded c r = false ↔
      (∀ m v, c.max_drawdown = some m → m ≠ 0 → r.drawdown_percent = some v → v ≠ 0 → v ≤ m) := by
  cases hm : c.max_drawdown <;> cases hd : r.drawdown_percent <;>
    simp [mdExcluded, hm, hd, not_lt]

theorem sharpe_clause_iff (c : EffectiveCriteria) (r : OptimizationResult) :
    sharpeExcluded c r = false ↔
      (∀ m v, c.min_sharpe = some m → m ≠ 0 → r.sharpe_ratio = some v → v ≠ 0 → m ≤ v) := by
  cases hm : c.min_sharpe <;> cases hd : r.sharpe_ratio <;>
    simp [sharpeExcluded, hm, hd, not_lt]

theorem recovery_clause_iff (c : EffectiveCriteria) (r : OptimizationResult) :
    recoveryExcluded c r = false ↔
      (∀ m v, c.min_recovery = some m → m ≠ 0 → r.recovery_factor = some v → v ≠ 0 → m ≤ v) := by
  cases hm : c.min_recovery <;> cases hd : r.recovery_factor <;>
    simp [recoveryExcluded, hm, hd, not_lt]

theorem passesFilter_iff (c : EffectiveCriteria) (r : OptimizationResult) :
    passesFilter c r = true ↔ SpecKeep c r := by
  unfold passesFilter SpecKeep
  simp only [Bool.and_eq_true, Bool.not_eq_true']
  rw [pf_clause_iff, md_clause_iff, sharpe_clause_iff, recovery_clause_iff]
  simp only [decide_eq_false_iff_not, not_lt]
  tauto

/-! Helper lemmas: the stable profit-descending sort. -/

theorem insertProfitDesc_perm (x : OptimizationResult) (l : List OptimizationResult) :
    List.Perm (insertProfitDesc x l) (x :: l) := by
  induction l with
  | nil => simp [insertProfitDesc]
  | cons y ys ih =>
    by_cases h : y.profit ≤ x.profit
    · simp [insertProfitDesc, h]
    · simp only [insertProfitDesc, h, decide_eq_true_eq, if_false]
      exact ((ih.cons y).trans (List.Perm.swap x y ys))

theorem sortProfitDesc_perm (l : List OptimizationResult) :
    List.Perm (sortProfitDesc l) l := by
  induction l with
  | nil => simp [sortProfitDesc]
  | cons x xs ih =>
    exact (insertProfitDesc_perm x (sortProfitDesc xs)).trans (ih.cons x)

theorem insertProfitDesc_pairwise (x : OptimizationResult) (l : List OptimizationResult)
    (h : List.Pairwise (fun a b : OptimizationResult => b.profit ≤ a.profit) l) :
    List.Pairwise (fun a b : OptimizationResult => b.profit ≤ a.profit)
      (insertProfitDesc x l) := by
  induction l with
  | nil => simp [insertProfitDesc]
  | cons y ys ih =>
    rcases List.pairwise_cons.mp h with ⟨hy, hys⟩
    by_cases hxy : y.profit ≤ x.profit
    · rw [insertProfitDesc, if_pos (by simpa using hxy)]
      refine List.pairwise_cons.mpr ⟨?_, h⟩
      intro z hz
      rcases List.mem_cons.mp hz with rfl | hz2
      · exact hxy
      · exact (hy z hz2).trans hxy
    · rw [insertProfitDesc, if_neg (by simpa using hxy)]
      refine List.pairwise_cons.mpr ⟨?_, ih hys⟩
      intro z hz
      have hz1 : z ∈ x :: ys := (insertProfitDesc_perm x ys).mem_iff.mp hz
      rcases List.mem_cons.mp hz1 with rfl | hz2
      · exact le_of_lt (not_le.mp hxy)
      · exact hy z hz2

theorem sortProfitDesc_pairwise (l : List OptimizationResult) :
    List.Pairwise (fun a b : OptimizationResult => b.profit ≤ a.profit)
      (sortProfitDesc l) := by
  induction l with
  | nil => simp [sortProfitDesc]
  | cons x xs ih => exact insertProfitDesc_pairwise x (sortProfitDesc xs) ih

theorem filter_insertProfitDesc (x : OptimizationResult) (l : List OptimizationResult)
    (p : ℚ) :
    (insertProfitDesc x l).filter (fun r => decide (r.profit = p))
      = if x.profit = p then x :: l.filter (fun r => decide (r.profit = p))
        else l.filter (fun r => decide (r.profit = p)) := by
  induction l with
  | nil =>
    by_cases hxp : x.profit = p <;> simp [insertProfitDesc, List.filter_cons, hxp]
  | cons y ys ih =>
    by_cases hxy : y.profit ≤ x.profit
    · rw [insertProfitDesc, if_pos (by simpa using hxy)]
      by_cases hxp : x.profit = p <;> simp [List.filter_cons, hxp]
    · rw [insertProfitDesc, if_neg (by simpa using hxy)]
      by_cases hyp : y.profit = p
      · have hxp : ¬ x.profit = p := by
          intro he
          exact absurd (he.trans hyp.symm ▸ (not_le.mp hxy)) (by simp [he, hyp])
        simp [List.filter_cons, hyp, ih, hxp]
      · by_cases hxp : x.profit = p <;> simp [List.filter_cons, hyp, ih, hxp]

theorem filter_sortProfitDesc (l : List OptimizationResult) (p : ℚ) :
    (sortProfitDesc l).filter (fun r => decide (r.profit = p))
      = l.filter (fun r => decide (r.profit = p)) := by
  induction l with
  | nil => simp [sortProfitDesc]
  | cons x xs ih =>
    rw [sortProfitDesc, filter_insertProfitDesc]
    by_cases hxp : x.profit = p <;> simp [List.filter_cons, hxp, ih]

theorem filter_filter_sublist {α : Type} (p q : α → Bool) (l : List α) :
    List.Sublist ((l.filter p).filter q) (l.filter q) :=
  List.Sublist.filter q (List.filter_sublist l)

/-- C6: without forward records the selection output is sorted by profit
descending; it is stable — for every profit value, the output's records of
that profit are a subsequence of R's records of that profit, so ties keep
their input order; and it holds at most top_n records, with 10 as the
default bound. -/
theorem C6_sorted_stable_truncated (R : List OptimizationResult) (c : SelectionCriteria) :
    List.Pairwise (fun a b : OptimizationResult => b.profit ≤ a.profit)
      (find_best_parameters R Option.none c) ∧
    (∀ p : ℚ, List.Sublist
      ((find_best_parameters R Option.none c).filter (fun r => decide (r.profit = p)))
      (R.filter (fun r => decide (r.profit = p)))) ∧
    (find_best_parameters R Option.none c).length ≤ (mergeCriteria c).top_n ∧
    (c.top_n = Option.none → (mergeCriteria c).top_n = 10) := by
  have hout : find_best_parameters R Option.none c
      = if R.isEmpty then []
        else (sortProfitDesc (R.filter (passesFilter (mergeCriteria c)))).take
          (mergeCriteria c).top_n := by
    simp only [find_best_parameters]
  by_cases hRE : R.isEmpty
  · rw [hout, if_pos hRE]
    exact ⟨List.Pairwise.nil, fun p => by simp, by simp,
      fun h => by simp [mergeCriteria, h]⟩
  · rw [hout, if_neg hRE]
    refine ⟨?_, ?_, ?_, ?_⟩
    · exact List.Pairwise.sublist (List.take_sublist _ _) (sortProfitDesc_pairwise _)
    · intro p
      have h1 := List.Sublist.filter (fun r => decide (r.profit = p))
        (List.take_sublist (mergeCriteria c).top_n
          (sortProfitDesc (R.filter (passesFilter (mergeCriteria c)))))
      rw [filter_sortProfitDesc] at h1
      exact h1.trans (filter_filter_sublist _ _ R)
    · exact List.length_take_le _ _
    · intro h
      simp [mergeCriteria, h]

/-- C6 witness: the default criteria carry the default truncation bound. -/
theorem C6_witness : (mergeCriteria {}).top_n = 10 :=
  (C6_sorted_stable_truncated [] {}).2.2.2 rfl

/-- C1 (amended): every record of the selection output meets the profit
and trade-count thresholds, and meets each optional bound whenever the
record's metric is present and nonzero and the bound is supplied and
nonzero; a record of R is kept by the filter stage exactly when it
satisfies these conditions.  (As written the claim reads "present" alone,
which the code's truthiness tests refute: see the counterexample.) -/
theorem C1_thresholds (R : List OptimizationResult) (c : SelectionCriteria)
    (r : OptimizationResult) :
    (r ∈ find_best_parameters R Option.none c → SpecKeep (mergeCriteria c) r) ∧
    (r ∈ R.filter (passesFilter (mergeCriteria c)) ↔ r ∈ R ∧ SpecKeep (mergeCriteria c) r) := by
  constructor
  · intro hr
    simp only [find_best_parameters] at hr
    by_cases hRE : R.isEmpty
    · simp [hRE] at hr
    · simp only [hRE, if_false] at hr
      have h1 := List.take_subset _ _ hr
      have h2 := (sortProfitDesc_perm _).mem_iff.mp h1
      exact (passesFilter_iff _ _).mp (List.mem_filter.mp h2).2
  · rw [List.mem_filter]
    exact and_congr_right fun _ => passesFilter_iff _ _

/-- C1 counterexample: a record whose profit factor is present with value
0 is returned under the default criteria although 0 is below the
effective minimum profit factor 1 — the zero value is falsy, so the
profit-factor test is skipped. -/
theorem C1_counterexample :
    find_best_parameters [sampleZeroPf] Option.none {} = [sampleZeroPf] ∧
    sampleZeroPf.profit_factor = some 0 ∧
    ¬ ((mergeCriteria {}).min_profit_factor ≤ 0) := by
  refine ⟨by with_unfolding_all rfl, rfl, by norm_num [mergeCriteria]⟩

/-- C1 witness: the amended theorem applied to a concrete record kept by
the default criteria. -/
theorem C1_witness :
    SpecKeep (mergeCriteria {}) samplePlain ∧
    (samplePlain ∈ [samplePlain] ∧ SpecKeep (mergeCriteria {}) samplePlain) := by
  constructor
  · refine (C1_thresholds [samplePlain] {} samplePlain).1 ?_
    rw [show find_best_parameters [samplePlain] Option.none {} = [samplePlain] from
      by with_unfolding_all rfl]
    exact List.mem_singleton.mpr rfl
  · refine ((C1_thresholds [samplePlain] {} samplePlain).2).mp ?_
    rw [show [samplePlain].filter (passesFilter (mergeCriteria {})) = [samplePlain] from
      by with_unfolding_all rfl]
    exact List.mem_singleton.mpr rfl

/-! Claim C2: forward-test cross-validation. -/

theorem validateForward_foldl (fwd : List OptimizationResult) :
    ∀ (top acc : List OptimizationResult),
    top.foldl (fun acc r =>
      match fwd.find? (fun f => pyDictEq r.parameters f.parameters) with
      | some f => if decide (0 < f.profit) then acc ++ [r] else acc
      | _ => acc) acc = acc ++ top.filter (forwardValidated fwd) := by
  intro top
  induction top with
  | nil => intro acc; simp
  | cons r rs ih =>
    intro acc
    simp only [List.foldl_cons, List.filter_cons]
    cases hf : fwd.find? (fun f => pyDictEq r.parameters f.parameters) with
    | none =>
      simp only [hf]
      rw [ih]
      simp [forwardValidated, hf]
    | some f =>
      simp only [hf]
      by_cases hp : 0 < f.profit
      · rw [if_pos (by simpa using hp), ih]
        simp [forwardValidated, hf, hp]
      · rw [if_neg (by simpa using hp), ih]
        simp [forwardValidated, hf, hp]

theorem validateForward_eq_filter (fwd top : List OptimizationResult) :
    validateForward fwd top = top.filter (forwardValidated fwd) := by
  unfold validateForward
  simpa using validateForward_foldl fwd top []

/-- C2 (amended): when a non-empty forward list is supplied, the output is
the post-filter post-sort selection restricted to the records whose first
==-equal forward match has positive profit, in that selection's order.
(For an empty supplied list the code skips validation: see the
counterexample.) -/
theorem C2_forward_validation (R : List OptimizationResult)
    (fwd : List OptimizationResult) (c : SelectionCriteria) (hne : fwd ≠ []) :
    find_best_parameters R (some fwd) c
      = (find_best_parameters R Option.none c).filter (forwardValidated fwd) := by
  have hfe : fwd.isEmpty = false := by
    cases fwd with
    | nil => exact absurd rfl hne
    | cons a as => rfl
  simp only [find_best_parameters]
  by_cases hRE : R.isEmpty
  · simp [hRE]
  · simp only [hRE, if_false, hfe, Bool.false_eq_true]
    exact validateForward_eq_filter fwd _

/-- C2 counterexample: a supplied empty forward list is falsy, so
cross-validation is skipped entirely and the surviving record is returned
although no forward match for it exists. -/
theorem C2_counterexample :
    find_best_parameters [samplePlain] (some []) {} = [samplePlain] ∧
    ([] : List OptimizationResult).find?
      (fun f => pyDictEq samplePlain.parameters f.parameters) = Option.none :=
  ⟨by with_unfolding_all rfl, rfl⟩

/-- C2 witness: the amended theorem applied to concrete records. -/
theorem C2_witness :
    find_best_parameters [samplePlain] (some [samplePlain]) {}
      = (find_best_parameters [samplePlain] Option.none {}).filter
          (forwardValidated [samplePlain]) :=
  C2_forward_validation [samplePlain] [samplePlain] {} (by simp)

/-! Claim C9: drawdown_percent is never populated. -/

theorem parseXmlRow_ddp {row : XmlElem} {r : OptimizationResult}
    (h : parseXmlRow row = Except.ok r) : r.drawdown_percent = Option.none := by
  unfold parseXmlRow at h
  simp only [bind, Except.bind, pure, Except.pure, throw, throwThe,
    MonadExceptOf.throw] at h
  repeat' split at h
  all_goals first
    | exact Except.noConfusion h
    | (injection h with h; rw [← h])

theorem htmlRowToResult_ddp {headers : List PStr} {i : ℕ} {cols : List PStr}
    {r : OptimizationResult} (h : htmlRowToResult headers i cols = some r) :
    r.drawdown_percent = Option.none := by
  unfold htmlRowToResult at h
  split at h
  · exact absurd h (by simp)
  · simp only [Option.some.injEq] at h
    rw [← h]

theorem htmlFold_ddp (headers : List PStr) :
    ∀ (l : List (ℕ × List PStr)) (acc : List OptimizationResult),
    (∀ r ∈ acc, r.drawdown_percent = Option.none) →
    ∀ r ∈ l.foldl (fun acc p =>
        match htmlRowToResult headers p.1 p.2 with
        | some r => acc ++ [r]
        | _ => acc) acc, r.drawdown_percent = Option.none := by
  intro l
  induction l with
  | nil => exact fun acc hacc r hr => hacc r hr
  | cons p ps ih =>
    intro acc hacc r hr
    simp only [List.foldl_cons] at hr
    cases hrow : htmlRowToResult headers p.1 p.2 with
    | none =>
      simp only [hrow] at hr
      exact ih acc hacc r hr
    | some r' =>
      simp only [hrow] at hr
      refine ih _ ?_ r hr
      intro z hz
      rcases List.mem_append.mp hz with hz1 | hz2
      · exact hacc z hz1
      · rw [List.mem_singleton.mp hz2]
        exact htmlRowToResult_ddp hrow

theorem parse_optimization_html_ddp {d : HtmlDoc} {res : List OptimizationResult}
    (h : parse_optimization_html d = Except.ok res) :
    ∀ r ∈ res, r.drawdown_percent = Option.none := by
  unfold parse_optimization_html at h
  split at h
  · exact absurd h (by simp [throw, throwThe, MonadExceptOf.throw])
  · simp only [pure, Except.pure, Except.ok.injEq] at h
    subst h
    exact htmlFold_ddp _ _ [] (by simp)

theorem exceptMapList_mem {α β : Type} (f : α → Except PyErr β) :
    ∀ (l : List α) (res : List β), exceptMapList f l = Except.ok res →
    ∀ b ∈ res, ∃ a ∈ l, f a = Except.ok b := by
  intro l
  induction l with
  | nil =>
    intro res h b hb
    simp only [exceptMapList, pure, Except.pure, Except.ok.injEq] at h
    subst h
    simp at hb
  | cons a as ih =>
    intro res h b hb
    unfold exceptMapList at h
    simp only [bind, Except.bind] at h
    cases hfa : f a with
    | error e => simp [hfa] at h
    | ok b' =>
      simp only [hfa] at h
      cases hrest : exceptMapList f as with
      | error e => simp [hrest] at h
      | ok bs =>
        simp only [hrest, pure, Except.pure, Except.ok.injEq] at h
        subst h
        rcases List.mem_cons.mp hb with rfl | hb2
        · exact ⟨a, by simp, hfa⟩
        · obtain ⟨a', ha', hfa'⟩ := ih bs hrest b hb2
          exact ⟨a', by simp [ha'], hfa'⟩

/-- C9: every record produced by either optimization parser has
drawdown_percent absent, and the maxDrawdown exclusion clause never fires
on a record with absent drawdown_percent, so it can never exclude a
parsed record. -/
theorem C9_ddp_never_filters :
    (∀ (root : XmlElem) (res : List OptimizationResult),
      parse_optimization_xml root = Except.ok res →
      ∀ r ∈ res, r.drawdown_percent = Option.none) ∧
    (∀ (d : HtmlDoc) (res : List OptimizationResult),
      parse_optimization_html d = Except.ok res →
      ∀ r ∈ res, r.drawdown_percent = Option.none) ∧
    (∀ (c : EffectiveCriteria) (r : OptimizationResult),
      r.drawdown_percent = Option.none → mdExcluded c r = false) := by
  refine ⟨?_, ?_, ?_⟩
  · intro root res h r hr
    obtain ⟨row, _, hrow⟩ := exceptMapList_mem parseXmlRow _ res h r hr
    exact parseXmlRow_ddp hrow
  · exact fun d res h => parse_optimization_html_ddp h
  · intro c r h
    cases hm : c.max_drawdown <;> simp [mdExcluded, hm, h]

/-- C9 witness: the sample XML document parses to a record with absent
drawdown_percent, and the clause is inert on a concrete record. -/
theorem C9_witness :
    (sampleParsedXml.headD
      { pass_number := 0, parameters := [], profit := 0,
        total_trades := 0 }).drawdown_percent = Option.none ∧
    mdExcluded (mergeCriteria {}) samplePlain = false := by
  constructor
  · have h1 : findallDescendants sampleXmlDoc "Row" = [sampleXmlRow] := by
      simp [findallDescendants, descendantsList, sampleXmlDoc, sampleXmlRow,
        XmlElem.children, XmlElem.tag]
    have h2 : parse_optimization_xml sampleXmlDoc = Except.ok sampleParsedXml := by
      unfold parse_optimization_xml
      rw [h1]
      with_unfolding_all rfl
    exact C9_ddp_never_filters.1 sampleXmlDoc sampleParsedXml h2 _
      (List.mem_singleton.mpr rfl)
  · exact C9_ddp_never_filters.2.2 (mergeCriteria {}) samplePlain rfl

/-! Claim C4: the backtest extractor and raising. -/

/-- C4 (amended): the backtest extraction never raises provided each of
the four split-token labels, when present, carries a value that is not
whitespace-only; every numeric conversion routes through the total
normalizer extract_number and degrades to a default instead of failing.
(On a present whitespace-only value the [0] indexing after str.split()
raises IndexError: see the counterexample.) -/
theorem C4_no_raise (rows : List (List PStr)) (trade_rows : Option (List (List PStr)))
    (h : ∀ k ∈ [("Short positions (won %)" : String), "Long positions (won %)",
          "Profit trades (% of total)", "Loss trades (% of total)"],
        pySplitWs (metricsGet (buildMetrics rows) k "0") ≠ []) :
    (parse_backtest_report rows trade_rows).isOk = true := by
  obtain ⟨s1, t1, hs1⟩ : ∃ x xs,
      pySplitWs (metricsGet (buildMetrics rows) "Short positions (won %)" "0") = x :: xs := by
    rcases hl : pySplitWs (metricsGet (buildMetrics rows) "Short positions (won %)" "0")
      with _ | ⟨x, xs⟩
    · exact absurd hl (h _ (by simp))
    · exact ⟨x, xs, rfl⟩
  obtain ⟨s2, t2, hs2⟩ : ∃ x xs,
      pySplitWs (metricsGet (buildMetrics rows) "Long positions (won %)" "0") = x :: xs := by
    rcases hl : pySplitWs (metricsGet (buildMetrics rows) "Long positions (won %)" "0")
      with _ | ⟨x, xs⟩
    · exact absurd hl (h _ (by simp))
    · exact ⟨x, xs, rfl⟩
  obtain ⟨s3, t3, hs3⟩ : ∃ x xs,
      pySplitWs (metricsGet (buildMetrics rows) "Profit trades (% of total)" "0") = x :: xs := by
    rcases hl : pySplitWs (metricsGet (buildMetrics rows) "Profit trades (% of total)" "0")
      with _ | ⟨x, xs⟩
    · exact absurd hl (h _ (by simp))
    · exact ⟨x, xs, rfl⟩
  obtain ⟨s4, t4, hs4⟩ : ∃ x xs,
      pySplitWs (metricsGet (buildMetrics rows) "Loss trades (% of total)" "0") = x :: xs := by
    rcases hl : pySplitWs (metricsGet (buildMetrics rows) "Loss trades (% of total)" "0")
      with _ | ⟨x, xs⟩
    · exact absurd hl (h _ (by simp))
    · exact ⟨x, xs, rfl⟩
  simp only [parse_backtest_report]
  rw [hs1, hs2, hs3, hs4]
  simp [headOrErr, bind, Except.bind, pure, Except.pure, Except.isOk, Except.toBool]

/-- C4 counterexample: an empty cell under the label Short positions
(won %) makes the extractor raise IndexError, not degrade to a default. -/
theorem C4_counterexample :
    parse_backtest_report [[("Short positions (won %)").toList, []]] Option.none
      = Except.error PyErr.indexError := by
  with_unfolding_all rfl

/-- C4 witness: the amended theorem applied to concrete rows carrying a
split-token label with a real value and defaults everywhere else. -/
theorem C4_witness : (parse_backtest_report sampleBacktestRows Option.none).isOk = true :=
  C4_no_raise sampleBacktestRows Option.none (by decide)

/-! Claim C5: failure conditions of the optimization report parser. -/

theorem optMetric_isOk (o : Option XmlElem) : (optMetric o).isOk = optMetricOk o := by
  cases o with
  | none => rfl
  | some e =>
    cases ht : e.text with
    | none =>
      simp [optMetric, optMetricOk, ht, throw, throwThe, MonadExceptOf.throw,
        Except.isOk, Except.toBool]
    | some s =>
      cases hp : parseFloat? s <;>
        simp [optMetric, optMetricOk, ht, hp, throw, throwThe, MonadExceptOf.throw,
          Except.isOk, Except.toBool, pure, Except.pure]

set_option maxHeartbeats 1000000 in
theorem parseXmlRow_isOk (row : XmlElem) : (parseXmlRow row).isOk = rowOk row := by
  rw [rowOk, ← optMetric_isOk, ← optMetric_isOk, ← optMetric_isOk, ← optMetric_isOk,
    ← optMetric_isOk]
  unfold parseXmlRow
  simp only [bind, Except.bind, pure, Except.pure, throw, throwThe, MonadExceptOf.throw]
  repeat' split
  all_goals
    simp_all [Except.isOk, Except.toBool, Option.isSome_iff_exists, List.isEmpty_iff]

theorem exceptMapList_isOk {α β : Type} (f : α → Except PyErr β) (l : List α) :
    (exceptMapList f l).isOk = l.all (fun a => (f a).isOk) := by
  induction l with
  | nil => rfl
  | cons a as ih =>
    unfold exceptMapList
    simp only [bind, Except.bind, List.all_cons]
    cases hfa : f a with
    | error e => simp [Except.isOk, Except.toBool, hfa]
    | ok b =>
      cases hrest : exceptMapList f as with
      | error e =>
        rw [← ih]
        simp [hrest, Except.isOk, Except.toBool]
      | ok bs =>
        rw [← ih]
        simp [hrest, Except.isOk, Except.toBool, pure, Except.pure]

theorem parse_optimization_html_isOk (d : HtmlDoc) :
    (parse_optimization_html d).isOk = (findOptTable d).isSome := by
  unfold parse_optimization_html
  cases h : findOptTable d <;>
    simp [h, throw, throwThe, MonadExceptOf.throw, pure, Except.pure,
      Except.isOk, Except.toBool]

/-- C5 (amended): restricted to reports whose numeric fields are plain
decimal text (digits, signs, a decimal point and ASCII whitespace — the
fragment on which the modelled builtins coincide with the Python float
and int builtins, which additionally accept exponent, underscore,
infinity/nan and non-ASCII-digit forms never emitted by MT5), parsing
succeeds exactly when the declared format is xml and the text is
well-formed XML and every Row element is itself well-formed (parseable
Pass attribute, Result and Trades children present with parseable or
empty text, optional metric children with parseable text), or the format
is html and a table is present; it fails on an unsupported format,
malformed XML, or an HTML document without a table — but also, against
the claim, on well-formed XML with malformed rows. -/
theorem C5_failure_conditions (content : ReportText) (file_type : PStr)
    (hplainx : ∀ root, content.xml = some root →
      ∀ row ∈ findallDescendants root "Row", rowPlain row = true)
    (hplainh : ∀ t, findOptTable content.html = some t → tablePassPlain t = true) :
    (parse_optimization_report content file_type).isOk = true ↔
      ((file_type = ("xml").toList ∧ ∃ root, content.xml = some root ∧
          ∀ row ∈ findallDescendants root "Row", rowOk row = true) ∨
       (file_type = ("html").toList ∧ (findOptTable content.html).isSome = true)) := by
  have hxh : ¬ (("xml").toList = ("html").toList) := by decide
  unfold parse_optimization_report
  by_cases hx : file_type = ("xml").toList
  · cases hc : content.xml with
    | none =>
      simp [hx, hc, hxh, throw, throwThe, MonadExceptOf.throw, Except.isOk, Except.toBool]
    | some root =>
      subst hx
      rw [if_pos rfl]
      simp only [hc]
      unfold parse_optimization_xml
      rw [exceptMapList_isOk]
      simp [parseXmlRow_isOk, List.all_eq_true, hxh]
  · by_cases hh : file_type = ("html").toList
    · simp [hx, hh, parse_optimization_html_isOk]
    · rw [if_neg hx, if_neg hh]
      simp only [throw, throwThe, MonadExceptOf.throw]
      constructor
      · intro h
        exact Bool.noConfusion h
      · rintro (⟨h1, _⟩ | ⟨h1, _⟩)
        · exact absurd h1 hx
        · exact absurd h1 hh

/-- C5 counterexample: a well-formed XML document whose single Row lacks
the mandatory Result child makes the parser raise (None.text attribute
access), although the claim promises a record list for every well-formed
XML input. -/
theorem C5_counterexample :
    parse_optimization_report ⟨some sampleBadXmlDoc, ⟨[]⟩⟩ ("xml").toList
      = Except.error PyErr.attributeError ∧
    (⟨some sampleBadXmlDoc, ⟨[]⟩⟩ : ReportText).xml.isSome = true := by
  constructor
  · have h1 : findallDescendants sampleBadXmlDoc "Row" = [sampleBadXmlRow] := by
      simp [findallDescendants, descendantsList, sampleBadXmlDoc, sampleBadXmlRow,
        XmlElem.children, XmlElem.tag]
    show parse_optimization_xml sampleBadXmlDoc = Except.error PyErr.attributeError
    unfold parse_optimization_xml
    rw [h1]
    with_unfolding_all rfl
  · rfl

/-- C5 witness: the characterisation applied to a well-formed document
with one complete Row whose numeric texts are plain decimal. -/
theorem C5_witness :
    (parse_optimization_report ⟨some sampleXmlDoc, ⟨[]⟩⟩ ("xml").toList).isOk = true := by
  have h1 : findallDescendants sampleXmlDoc "Row" = [sampleXmlRow] := by
    simp [findallDescendants, descendantsList, sampleXmlDoc, sampleXmlRow,
      XmlElem.children, XmlElem.tag]
  refine (C5_failure_conditions ⟨some sampleXmlDoc, ⟨[]⟩⟩ (("xml").toList) ?_ ?_).mpr
    (Or.inl ⟨rfl, sampleXmlDoc, rfl, ?_⟩)
  · intro root h
    injection h with h
    subst h
    rw [h1]
    intro row hrow
    rw [List.mem_singleton.mp hrow]
    with_unfolding_all rfl
  · intro t h
    exact Option.noConfusion h
  · rw [h1]
    intro row hrow
    rw [List.mem_singleton.mp hrow]
    with_unfolding_all rfl

/-! Claim C7: comparing two presets of which one has a backtest report. -/

/-- C7 (amended): with exactly one of the two resolved presets carrying a
backtest report, all chart arrays have length 1 and are populated from
it, the best-profit, lowest-drawdown and best-profit-factor selections
point at that preset, while the best-Sharpe and best-recovery selections
point at it only when the stored value is present and nonzero (a Python
None or 0.0 is falsy, leaving those selections empty); the other preset
appears only in the summary list. -/
theorem C7_single_report (store : PyDict Preset) (i1 i2 : PStr) (p1 p2 : Preset)
    (r : PresetBacktestMetrics)
    (h1 : List.lookup i1 store = some p1) (h2 : List.lookup i2 store = some p2)
    (hb1 : p1.backtest_report = some r) (hb2 : p2.backtest_report = Option.none) :
    compare_presets store [i1, i2]
      = some ⟨[(p1.id, true), (p2.id, false)], chartOne p1 r, bestsOne p1 r⟩ ∧
    compare_presets store [i2, i1]
      = some ⟨[(p2.id, false), (p1.id, true)], chartOne p1 r, bestsOne p1 r⟩ := by
  have hchart12 : buildChart [p1, p2] = chartOne p1 r := by
    simp [buildChart, hb1, hb2, chartOne]
  have hchart21 : buildChart [p2, p1] = chartOne p1 r := by
    simp [buildChart, hb1, hb2, chartOne]
  have hupd : (updateBest {} p1 r).metrics = bestsOne p1 r := by
    unfold updateBest bestsOne
    cases hs : r.sharpe_ratio <;> cases hrec : r.recovery_factor <;>
      simp only [beatsHigh, beatsLow, Bool.and_true, decide_eq_true_eq, if_true] <;>
      split_ifs <;> simp_all
  have hcalc12 : calculate_metrics_comparison [p1, p2] = bestsOne p1 r := by
    simp only [calculate_metrics_comparison, List.foldl_cons, List.foldl_nil, hb1, hb2]
    exact hupd
  have hcalc21 : calculate_metrics_comparison [p2, p1] = bestsOne p1 r := by
    simp only [calculate_metrics_comparison, List.foldl_cons, List.foldl_nil, hb1, hb2]
    exact hupd
  constructor
  · simp [compare_presets, h1, h2, hb1, hb2, hchart12, hcalc12]
  · simp [compare_presets, h1, h2, hb1, hb2, hchart21, hcalc21]

/-- C7 counterexample: comparing the sample presets, of which only the
first carries a report and that report stores the parser's absent Sharpe
ratio, yields an empty best-Sharpe selection — not one pointing at the
reported preset, whose name is the only chart label. -/
theorem C7_counterexample :
    (compare_presets sampleStore [("a").toList, ("b").toList]).map
        (fun c => c.metrics_comparison.best_sharpe) = some Option.none ∧
    (compare_presets sampleStore [("a").toList, ("b").toList]).map
        (fun c => c.chart_data.labels) = some [("P1").toList] := by
  constructor <;> with_unfolding_all rfl

/-- C7 witness: the amended theorem applied to the sample store. -/
theorem C7_witness :
    compare_presets sampleStore [("a").toList, ("b").toList]
      = some ⟨[(samplePresetWithReport.id, true), (samplePresetBare.id, false)],
              chartOne samplePresetWithReport sampleMetricsNoSharpe,
              bestsOne samplePresetWithReport sampleMetricsNoSharpe⟩ :=
  (C7_single_report sampleStore (("a").toList) (("b").toList)
    samplePresetWithReport samplePresetBare sampleMetricsNoSharpe rfl rfl rfl rfl).1

/-! Claim C3: the .set file round trip. -/

theorem isDigit_ne_bar {c : Char} (h : c.isDigit = true) : c ≠ '|' := by
  intro e; rw [e] at h; exact absurd h (by decide)

theorem not_space_ne_newline {c : Char} (h : pyIsSpace c = false) : c ≠ '\n' := by
  intro e; rw [e] at h; exact absurd h (by decide)

theorem length_dropWhile_le {α : Type} (p : α → Bool) (l : List α) :
    (l.dropWhile p).length ≤ l.length := by
  induction l with
  | nil => simp
  | cons c cs ih =>
    rw [List.dropWhile_cons]
    split
    · exact le_trans ih (by simp)
    · simp

theorem head_not_space_of_strip {c : Char} {t : PStr} (h : pyStrip (c :: t) = c :: t) :
    pyIsSpace c = false := by
  by_contra hc
  rw [Bool.not_eq_false] at hc
  have hlen : (pyStrip (c :: t)).length ≤ t.length := by
    unfold pyStrip
    rw [show (c :: t).dropWhile pyIsSpace = t.dropWhile pyIsSpace by
      simp [List.dropWhile_cons, hc]]
    rw [List.length_reverse]
    calc ((t.dropWhile pyIsSpace).reverse.dropWhile pyIsSpace).length
        ≤ (t.dropWhile pyIsSpace).reverse.length := length_dropWhile_le _ _
      _ = (t.dropWhile pyIsSpace).length := by simp
      _ ≤ t.length := length_dropWhile_le _ _
  rw [h] at hlen
  simp at hlen

theorem dropWhile_append_last {α : Type} (p : α → Bool) (xs : List α) (c : α)
    (hc : p c = false) : ∃ ys, (xs ++ [c]).dropWhile p = ys ++ [c] := by
  induction xs with
  | nil => exact ⟨[], by simp [hc]⟩
  | cons x xt ih =>
    rw [List.cons_append, List.dropWhile_cons]
    split
    · exact ih
    · exact ⟨x :: xt, rfl⟩

theorem splitChar_not_mem (sep : Char) (l : PStr) (h : sep ∉ l) :
    splitChar sep l = [l] := by
  induction l with
  | nil => rfl
  | cons c cs ih =>
    have hc : ¬ c = sep := fun e => h (by simp [e])
    rw [splitChar]
    simp only [if_neg hc, ih (fun hm => h (by simp [hm]))]
    rfl

theorem splitChar_append (sep : Char) (l t : PStr) (h : sep ∉ l) :
    splitChar sep (l ++ sep :: t) = l :: splitChar sep t := by
  induction l with
  | nil => simp [splitChar]
  | cons c cs ih =>
    have hc : ¬ c = sep := fun e => h (by simp [e])
    rw [List.cons_append, splitChar]
    simp only [if_neg hc, ih (fun hm => h (by simp [hm]))]
    rfl

theorem joinLines_splitChar (L : List PStr) (hne : L ≠ [])
    (h : ∀ l ∈ L, '\n' ∉ l) : splitChar '\n' (joinLines L) = L := by
  induction L with
  | nil => exact absurd rfl hne
  | cons l ls ih =>
    cases ls with
    | nil =>
      rw [joinLines]
      exact splitChar_not_mem _ _ (h l (by simp))
    | cons l2 ls2 =>
      rw [show joinLines (l :: l2 :: ls2) = l ++ '\n' :: joinLines (l2 :: ls2) from rfl]
      rw [splitChar_append _ _ _ (h l (by simp))]
      rw [ih (by simp) (fun x hx => h x (by simp [hx]))]

theorem splitFirst_append (sep : Char) (k t : PStr) (h : sep ∉ k) :
    splitFirst sep (k ++ sep :: t) = some (k, t) := by
  induction k with
  | nil => simp [splitFirst]
  | cons c cs ih =>
    have hc : ¬ c = sep := fun e => h (by simp [e])
    rw [List.cons_append, splitFirst]
    simp only [if_neg hc, ih (fun hm => h (by simp [hm]))]
    rfl

theorem splitBars_cons2 (c d : Char) (cs : PStr) (h : ¬ (c = '|' ∧ d = '|')) :
    splitBars (c :: d :: cs) =
      (c :: (splitBars (d :: cs)).headI) :: (splitBars (d :: cs)).tail := by
  simp only [splitBars, if_neg h]

theorem splitBars_barbar (cs : PStr) : splitBars ('|' :: '|' :: cs) = [] :: splitBars cs := by
  simp [splitBars]

theorem hasBarBar_cons2 (c d : Char) (cs : PStr) :
    hasBarBar (c :: d :: cs) = ((c == '|' && d == '|') || hasBarBar (d :: cs)) := by
  simp only [hasBarBar]

theorem splitBars_append : ∀ (v : PStr), ∀ t, hasBarBar (v ++ ['|']) = false →
    splitBars (v ++ '|' :: '|' :: t) = v :: splitBars t
  | [], t, _ => by
    rw [List.nil_append, splitBars_barbar]
  | [c], t, h => by
    have hc : c ≠ '|' := by
      intro e
      rw [show [c] ++ ['|'] = c :: '|' :: ([] : PStr) from rfl, hasBarBar_cons2, e] at h
      exact absurd h (by decide)
    rw [show [c] ++ '|' :: '|' :: t = c :: '|' :: '|' :: t from rfl,
      splitBars_cons2 c '|' ('|' :: t) (fun hp => hc hp.1), splitBars_barbar]
    rfl
  | c :: d :: vs, t, h => by
    have hh : hasBarBar ((c :: d :: vs) ++ ['|'])
        = ((c == '|' && d == '|') || hasBarBar ((d :: vs) ++ ['|'])) := by
      rw [show (c :: d :: vs) ++ ['|'] = c :: d :: (vs ++ ['|']) from rfl, hasBarBar_cons2]
      rfl
    rw [hh, Bool.or_eq_false_iff] at h
    have hcd : ¬ (c = '|' ∧ d = '|') := by
      intro hp
      rw [hp.1, hp.2] at h
      exact absurd h.1 (by decide)
    rw [show (c :: d :: vs) ++ '|' :: '|' :: t = c :: d :: (vs ++ '|' :: '|' :: t) from rfl,
      splitBars_cons2 c d _ hcd,
      show d :: (vs ++ '|' :: '|' :: t) = (d :: vs) ++ '|' :: '|' :: t from rfl,
      splitBars_append (d :: vs) t h.2]
    rfl

theorem hasBarBar_of_no_bar : ∀ (v : PStr), (∀ c ∈ v, c ≠ '|') →
    hasBarBar (v ++ ['|']) = false
  | [], _ => by decide
  | [c], h => by
    rw [show [c] ++ ['|'] = c :: '|' :: ([] : PStr) from rfl, hasBarBar_cons2]
    have hc : (c == '|') = false := by
      simp [h c (by simp)]
    rw [hc]
    simp [hasBarBar]
  | c :: d :: vs, h => by
    rw [show (c :: d :: vs) ++ ['|'] = c :: d :: (vs ++ ['|']) from rfl, hasBarBar_cons2]
    have hc : (c == '|') = false := by
      simp [h c (by simp)]
    rw [show d :: (vs ++ ['|']) = (d :: vs) ++ ['|'] from rfl,
      hasBarBar_of_no_bar (d :: vs) (fun x hx => h x (by simp at hx; rcases hx with h1 | h1 <;> simp [h1])),
      hc]
    simp

theorem intToDigits_no_bar (i : ℤ) : ∀ c ∈ intToDigits i, c ≠ '|' := by
  intro c hc
  unfold intToDigits at hc
  by_cases h : i < 0
  · rw [if_pos h] at hc
    rcases List.mem_cons.mp hc with rfl | hc
    · decide
    · exact isDigit_ne_bar (natToDigits_all_digit _ c hc)
  · rw [if_neg h] at hc
    exact isDigit_ne_bar (natToDigits_all_digit _ c hc)

theorem intToDigits_not_space (i : ℤ) : ∀ c ∈ intToDigits i, pyIsSpace c = false := by
  intro c hc
  unfold intToDigits at hc
  by_cases h : i < 0
  · rw [if_pos h] at hc
    rcases List.mem_cons.mp hc with rfl | hc
    · decide
    · exact isDigit_not_space (natToDigits_all_digit _ c hc)
  · rw [if_neg h] at hc
    exact isDigit_not_space (natToDigits_all_digit _ c hc)

theorem formatFixed8_ne_bar (q : ℚ) : ∀ c ∈ formatFixed8 q, c ≠ '|' := by
  intro c hc
  simp only [formatFixed8] at hc
  rcases List.mem_append.mp hc with h1 | h2
  · rcases List.mem_append.mp h1 with h3 | h4
    · by_cases hn : round8 q < 0
      · rw [if_pos hn] at h3
        rw [List.mem_singleton.mp h3]
        decide
      · rw [if_neg hn] at h3
        exact absurd h3 (List.not_mem_nil c)
    · exact isDigit_ne_bar (natToDigits_all_digit _ c h4)
  · rcases List.mem_cons.mp h2 with rfl | h5
    · decide
    · unfold padZeros at h5
      rcases List.mem_append.mp h5 with h6 | h7
      · rw [(List.mem_replicate.mp h6).2]
        decide
      · exact isDigit_ne_bar (natToDigits_all_digit _ c h7)

theorem pyStrip_keyline (k m : PStr) (hk : pyStrip k = k) :
    pyStrip (k ++ '=' :: (m ++ ['|'])) = k ++ '=' :: (m ++ ['|']) := by
  refine pyStrip_eq_self ?_ ?_
  · cases k with
    | nil =>
      simp only [List.nil_append, List.headD_cons]
      decide
    | cons c cs =>
      simp only [List.cons_append, List.headD_cons]
      exact head_not_space_of_strip hk
  · rw [show (k ++ '=' :: (m ++ ['|'])).reverse = '|' :: (m.reverse ++ '=' :: k.reverse) by
      simp]
    simp only [List.headD_cons]
    decide

theorem parseSetLine_semicolon (params : PyDict ParamValue) (line : PStr)
    (h : line.headD ' ' = ';') : parseSetLine params line = params := by
  cases line with
  | nil => exact absurd h (by decide)
  | cons c rest =>
    rw [List.headD_cons] at h
    subst h
    have hstrip : ∃ m, pyStrip (';' :: rest) = ';' :: m := by
      have h1 : (';' :: rest).dropWhile pyIsSpace = ';' :: rest :=
        dropWhile_id_of_head (by rw [List.headD_cons]; decide)
      obtain ⟨ys, hys⟩ := dropWhile_append_last pyIsSpace rest.reverse ';' (by decide)
      refine ⟨ys.reverse, ?_⟩
      unfold pyStrip
      rw [h1, show (';' :: rest).reverse = rest.reverse ++ [';'] by simp, hys]
      simp
    obtain ⟨m, hm⟩ := hstrip
    rw [parseSetLine, hm]
    simp

theorem parseSetLine_parts (params : PyDict ParamValue) (k vs ty : PStr)
    (hk : goodKey k) (hvs : pyStrip vs = vs) (hbb : hasBarBar (vs ++ ['|']) = false)
    (hty : pyStrip ty = ty) (htybb : hasBarBar (ty ++ ['|']) = false) :
    parseSetLine params (k ++ '=' :: (vs ++ '|' :: '|' :: (ty ++ ['|', '|']))) =
      dictSet params k
        (if ty = ("bool").toList then
          ParamValue.bool (vs.map Char.toLower = ("true").toList)
         else if ty = ("int").toList then ParamValue.int ((parseInt? vs).getD 0)
         else if ty = ("double").toList then ParamValue.float ((parseFloat? vs).getD 0)
         else ParamValue.str vs) := by
  obtain ⟨hk1, hk2, hk3, hk4⟩ := hk
  have hline : pyStrip (k ++ '=' :: (vs ++ '|' :: '|' :: (ty ++ ['|', '|'])))
      = k ++ '=' :: (vs ++ '|' :: '|' :: (ty ++ ['|', '|'])) := by
    have hshape : vs ++ '|' :: '|' :: (ty ++ ['|', '|'])
        = (vs ++ '|' :: '|' :: (ty ++ ['|'])) ++ ['|'] := by simp
    rw [hshape]
    exact pyStrip_keyline k _ hk1
  have hne : (k ++ '=' :: (vs ++ '|' :: '|' :: (ty ++ ['|', '|']))).isEmpty = false := by
    cases k <;> rfl
  have hhead : ¬ (k ++ '=' :: (vs ++ '|' :: '|' :: (ty ++ ['|', '|']))).headD ' ' = ';' := by
    cases k with
    | nil =>
      simp only [List.nil_append, List.headD_cons]
      decide
    | cons c cs =>
      simp only [List.cons_append, List.headD_cons]
      intro e
      exact hk4 (by rw [List.headD_cons]; exact e)
  have hcont : (k ++ '=' :: (vs ++ '|' :: '|' :: (ty ++ ['|', '|']))).contains '=' = true := by
    simp
  have hsf : splitFirst '=' (k ++ '=' :: (vs ++ '|' :: '|' :: (ty ++ ['|', '|'])))
      = some (k, vs ++ '|' :: '|' :: (ty ++ ['|', '|'])) := by
    refine splitFirst_append '=' k _ ?_
    intro hm
    exact hk3 (by simp [hm])
  have hsb : splitBars (vs ++ '|' :: '|' :: (ty ++ ['|', '|'])) = [vs, ty, []] := by
    rw [show ty ++ ['|', '|'] = ty ++ '|' :: '|' :: ([] : PStr) from rfl]
    rw [splitBars_append vs _ hbb, splitBars_append ty _ htybb]
    rfl
  simp only [parseSetLine]
  rw [hline]
  simp only [hne, Bool.false_eq_true, if_false, if_neg hhead, hcont, if_true, hsf, hsb,
    List.headI, hvs, hty, hk1]

theorem pyStrip_intToDigits (i : ℤ) : pyStrip (intToDigits i) = intToDigits i :=
  pyStrip_eq_self_of_all (intToDigits_not_space i)

theorem parseSetLine_setFileLine (params : PyDict ParamValue) (k : PStr) (v : ParamValue)
    (hk : goodKey k) (hv : goodVal v) :
    parseSetLine params (setFileLine (k, v)) = dictSet params k (roundtripVal v) := by
  cases v with
  | bool b =>
    cases b with
    | false =>
      rw [show setFileLine (k, ParamValue.bool false)
          = k ++ '=' :: (("false").toList ++ '|' :: '|' :: (("bool").toList ++ ['|', '|'])) by
        simp only [setFileLine, renderParam, List.append_assoc, List.cons_append,
          Bool.false_eq_true, if_false]]
      rw [parseSetLine_parts params k _ _ hk (by decide) (by decide) (by decide) (by decide)]
      rw [if_pos rfl]
      rfl
    | true =>
      rw [show setFileLine (k, ParamValue.bool true)
          = k ++ '=' :: (("true").toList ++ '|' :: '|' :: (("bool").toList ++ ['|', '|'])) by
        simp only [setFileLine, renderParam, List.append_assoc, List.cons_append, if_true]]
      rw [parseSetLine_parts params k _ _ hk (by decide) (by decide) (by decide) (by decide)]
      rw [if_pos rfl]
      rfl
  | int i =>
    rw [show setFileLine (k, ParamValue.int i)
        = k ++ '=' :: (intToDigits i ++ '|' :: '|' :: (("int").toList ++ ['|', '|'])) by
      simp only [setFileLine, renderParam, List.append_assoc, List.cons_append]]
    rw [parseSetLine_parts params k _ _ hk (pyStrip_intToDigits i)
      (hasBarBar_of_no_bar _ (intToDigits_no_bar i)) (by decide) (by decide)]
    rw [if_neg (by decide), if_pos rfl, parseInt_intToDigits]
    rfl
  | float q =>
    rw [show setFileLine (k, ParamValue.float q)
        = k ++ '=' :: (formatFixed8 q ++ '|' :: '|' :: (("double").toList ++ ['|', '|'])) by
      simp only [setFileLine, renderParam, List.append_assoc, List.cons_append]]
    rw [parseSetLine_parts params k _ _ hk
      (pyStrip_eq_self_of_all (formatFixed8_not_space q))
      (hasBarBar_of_no_bar _ (formatFixed8_ne_bar q)) (by decide) (by decide)]
    rw [if_neg (by decide), if_neg (by decide), if_pos rfl, parseFloat_formatFixed8]
    rfl
  | str s =>
    obtain ⟨hs1, hs2, hs3⟩ := hv
    rw [show setFileLine (k, ParamValue.str s)
        = k ++ '=' :: (s ++ '|' :: '|' :: (("string").toList ++ ['|', '|'])) by
      simp only [setFileLine, renderParam, List.append_assoc, List.cons_append]]
    rw [parseSetLine_parts params k _ _ hk hs1 hs3 (by decide) (by decide)]
    rw [if_neg (by decide), if_neg (by decide), if_neg (by decide)]
    rfl

theorem dictSet_append_of_not_mem {α : Type} (params : PyDict α) (k : PStr) (v : α)
    (h : k ∉ params.map Prod.fst) : dictSet params k v = params ++ [(k, v)] := by
  induction params with
  | nil => rfl
  | cons kv rest ih =>
    obtain ⟨k1, v1⟩ := kv
    simp only [dictSet]
    have hne : ¬ k1 = k := by
      intro e
      subst e
      exact h (List.mem_cons_self k1 (rest.map Prod.fst))
    rw [if_neg hne, ih (fun hm => h (List.mem_cons_of_mem k1 hm))]
    rfl

theorem foldl_setFileLines (P : PyDict ParamValue) : ∀ (params : PyDict ParamValue),
    (∀ kv ∈ P, goodKey kv.1 ∧ goodVal kv.2) →
    (params.map Prod.fst ++ P.map Prod.fst).Nodup →
    (P.map setFileLine).foldl parseSetLine params
      = params ++ P.map (fun kv => (kv.1, roundtripVal kv.2)) := by
  induction P with
  | nil =>
    intro params _ _
    simp
  | cons kv rest ih =>
    obtain ⟨k, v⟩ := kv
    intro params hg hnd
    simp only [List.map_cons] at hnd
    rw [List.map_cons, List.foldl_cons,
      parseSetLine_setFileLine params k v (hg (k, v) (by simp)).1 (hg (k, v) (by simp)).2]
    have hk : k ∉ params.map Prod.fst := by
      have hd := List.disjoint_of_nodup_append hnd
      exact fun hm => hd hm (List.mem_cons_self _ _)
    rw [dictSet_append_of_not_mem params k (roundtripVal v) hk]
    have hnd2 : ((params ++ [(k, roundtripVal v)]).map Prod.fst ++ rest.map Prod.fst).Nodup := by
      rw [List.map_append, show [(k, roundtripVal v)].map Prod.fst = [k] from rfl]
      rw [List.append_cons] at hnd
      exact hnd
    rw [ih (params ++ [(k, roundtripVal v)])
      (fun x hx => hg x (List.mem_cons_of_mem _ hx)) hnd2, List.append_assoc]
    rfl

theorem setFileLine_chars {c : Char} (k : PStr) (v : ParamValue) :
    c ∈ setFileLine (k, v) →
      c ∈ k ∨ c = '=' ∨ c ∈ (renderParam v).1 ∨ c ∈ (renderParam v).2 ∨ c = '|' := by
  rcases hr : renderParam v with ⟨vs, ty⟩
  intro hm
  simp only [setFileLine, hr, List.mem_append, List.mem_cons, List.mem_singleton,
    List.not_mem_nil] at hm
  simp only [hr]
  tauto

theorem setFileLine_no_newline (kv : PStr × ParamValue)
    (hk : goodKey kv.1) (hv : goodVal kv.2) : '\n' ∉ setFileLine kv := by
  obtain ⟨k, v⟩ := kv
  intro hm
  rcases setFileLine_chars k v hm with h | h | h | h | h
  · exact hk.2.1 (by simp [h])
  · exact absurd h (by decide)
  · cases v with
    | bool b => cases b <;> exact absurd h (by decide)
    | int i =>
      simp only [renderParam] at h
      exact absurd (intToDigits_not_space i '\n' h) (by decide)
    | float q =>
      simp only [renderParam] at h
      exact absurd (formatFixed8_not_space q '\n' h) (by decide)
    | str s =>
      simp only [renderParam] at h
      exact hv.2.1 (by simp [h])
  · cases v with
    | bool b => cases b <;> exact absurd h (by decide)
    | int i =>
      simp only [renderParam] at h
      exact absurd h (by decide)
    | float q =>
      simp only [renderParam] at h
      exact absurd h (by decide)
    | str s =>
      simp only [renderParam] at h
      exact absurd h (by decide)
  · exact absurd h (by decide)

/-- Claim C3 (amended): for every parameter mapping with distinct keys
whose keys are strip-invariant, free of newlines and equals signs and do
not start with the comment marker, and whose string values are
strip-invariant, newline-free and contain no bar pair even when a bar is
appended, parse_set_file of generate_set_file returns exactly the keys of
the mapping in order, with booleans, integers and strings reproduced
unchanged and each float reproduced as its 8-decimal rounding, which is
within 10⁻⁸ of the original value.  (The unrestricted claim is refuted by
C3_counterexample: a string value with leading whitespace comes back
stripped.) -/
theorem C3_roundtrip (P : PyDict ParamValue) (preset_name now : PStr)
    (hgood : ∀ kv ∈ P, goodKey kv.1 ∧ goodVal kv.2)
    (hnodup : (P.map Prod.fst).Nodup)
    (hname : ¬ preset_name.contains '\n') (hnow : ¬ now.contains '\n') :
    parse_set_file (generate_set_file P preset_name now)
        = P.map (fun kv => (kv.1, roundtripVal kv.2)) ∧
      ∀ q : ℚ, |(round8 q : ℚ) / 100000000 - q| ≤ 1 / 100000000 := by
  refine ⟨?_, fun q => round8_div_close q⟩
  have hnl : ∀ l ∈ ([("; saved automatically on ").toList ++ now,
      ("; this file contains last used input parameters for testing/optimizing ").toList
        ++ preset_name ++ (" expert advisor").toList,
      [';']] ++ P.map setFileLine), '\n' ∉ l := by
    intro l hl
    rcases List.mem_append.mp hl with h | h
    · simp only [List.mem_cons, List.mem_singleton, List.not_mem_nil, or_false] at h
      rcases h with rfl | rfl | rfl
      · intro hm
        rcases List.mem_append.mp hm with h2 | h2
        · exact absurd h2 (by decide)
        · exact hnow (by simp [h2])
      · intro hm
        rcases List.mem_append.mp hm with h2 | h2
        · rcases List.mem_append.mp h2 with h3 | h3
          · exact absurd h3 (by decide)
          · exact hname (by simp [h3])
        · exact absurd h2 (by decide)
      · decide
    · obtain ⟨kv, hkv, rfl⟩ := List.mem_map.mp h
      exact setFileLine_no_newline kv (hgood kv hkv).1 (hgood kv hkv).2
  simp only [generate_set_file, parse_set_file]
  rw [joinLines_splitChar _ (by simp) hnl]
  rw [show ([("; saved automatically on ").toList ++ now,
      ("; this file contains last used input parameters for testing/optimizing ").toList
        ++ preset_name ++ (" expert advisor").toList,
      [';']] ++ P.map setFileLine)
      = (("; saved automatically on ").toList ++ now) ::
        ((("; this file contains last used input parameters for testing/optimizing ").toList
          ++ preset_name ++ (" expert advisor").toList) ::
          ([';'] :: P.map setFileLine)) from rfl]
  rw [List.foldl_cons, List.foldl_cons, List.foldl_cons]
  rw [parseSetLine_semicolon _ _ (by simp), parseSetLine_semicolon _ _ (by simp),
    parseSetLine_semicolon _ _ (by simp)]
  exact foldl_setFileLines P [] hgood hnodup

/-- Claim C3 counterexample: the mapping a ↦ " x" (a string value with a
leading space) is encoded verbatim but decoded through str.strip, so the
round trip returns the distinct value "x" — refuting the unrestricted
claim that every string value is reproduced equal. -/
theorem C3_counterexample :
    parse_set_file (generate_set_file
        [(("a").toList, ParamValue.str ((" x").toList))] (("p").toList) (("t").toList))
      = [(("a").toList, ParamValue.str (("x").toList))] ∧
    ParamValue.str ((" x").toList) ≠ ParamValue.str (("x").toList) := by
  constructor <;> decide

/-- Claim C3 witness: the round-trip theorem applied to a concrete
mapping holding one value of each kind. -/
theorem C3_witness :
    parse_set_file (generate_set_file
        [(("A").toList, ParamValue.bool true),
         (("B").toList, ParamValue.int (-5)),
         (("LotSize").toList, ParamValue.float (mkRat 1 10)),
         (("D").toList, ParamValue.str (("hello").toList))]
        (("p").toList) (("20260101").toList))
      = ([(("A").toList, ParamValue.bool true),
          (("B").toList, ParamValue.int (-5)),
          (("LotSize").toList, ParamValue.float (mkRat 1 10)),
          (("D").toList, ParamValue.str (("hello").toList))] : PyDict ParamValue).map
          (fun kv => (kv.1, roundtripVal kv.2)) :=
  (C3_roundtrip
    [(("A").toList, ParamValue.bool true),
     (("B").toList, ParamValue.int (-5)),
     (("LotSize").toList, ParamValue.float (mkRat 1 10)),
     (("D").toList, ParamValue.str (("hello").toList))]
    (("p").toList) (("20260101").toList)
    (by
      intro kv hkv
      simp only [List.mem_cons, List.not_mem_nil, or_false] at hkv
      rcases hkv with rfl | rfl | rfl | rfl
      · exact ⟨⟨by decide, by decide, by decide, by decide⟩, trivial⟩
      · exact ⟨⟨by decide, by decide, by decide, by decide⟩, trivial⟩
      · exact ⟨⟨by decide, by decide, by decide, by decide⟩, trivial⟩
      · exact ⟨⟨by decide, by decide, by decide, by decide⟩,
          ⟨by decide, by decide, by decide⟩⟩)
    (by decide) (by decide) (by decide)).1
